import Mathlib

/-!
Shallow embedding of the numerical cores of `hktkzyx_toolbox`
(`hktkzyx_toolbox/electronics.py`): the E-series preferred-number rounding
engine, the standard-resistance table lookup, and the LED transfer-curve
model.  Real values are embedded as rationals (`ℚ`); Python exceptions are
embedded as `Except String`; `numpy` NaN results are embedded as `Option`.
-/

namespace HktkzyxToolbox

/-- The 24-entry preferred-number table `PREFERRED_NUMBER_E24`. -/
def PREFERRED_NUMBER_E24 : List ℚ :=
  [1.0, 1.1, 1.2, 1.3, 1.5, 1.6, 1.8, 2.0, 2.2, 2.4, 2.7, 3.0,
   3.3, 3.6, 3.9, 4.3, 4.7, 5.1, 5.6, 6.2, 6.8, 7.5, 8.2, 9.1]

/-- The 192-entry preferred-number table `PREFERRED_NUMBER_E192`. -/
def PREFERRED_NUMBER_E192 : List ℚ :=
  [1.00, 1.01, 1.02, 1.04, 1.05, 1.06, 1.07, 1.09, 1.10, 1.11, 1.13, 1.14,
   1.15, 1.17, 1.18, 1.20, 1.21, 1.23, 1.24, 1.26, 1.27, 1.29, 1.30, 1.32,
   1.33, 1.35, 1.37, 1.38, 1.40, 1.42, 1.43, 1.45, 1.47, 1.49, 1.50, 1.52,
   1.54, 1.56, 1.58, 1.60, 1.62, 1.64, 1.65, 1.67, 1.69, 1.72, 1.74, 1.76,
   1.78, 1.80, 1.82, 1.84, 1.87, 1.89, 1.91, 1.93, 1.96, 1.98, 2.00, 2.03,
   2.05, 2.08, 2.10, 2.13, 2.15, 2.18, 2.21, 2.23, 2.26, 2.29, 2.32, 2.34,
   2.37, 2.40, 2.43, 2.46, 2.49, 2.52, 2.55, 2.58, 2.61, 2.64, 2.67, 2.71,
   2.74, 2.77, 2.80, 2.84, 2.87, 2.91, 2.94, 2.98, 3.01, 3.05, 3.09, 3.12,
   3.16, 3.20, 3.24, 3.28, 3.32, 3.36, 3.40, 3.44, 3.48, 3.52, 3.57, 3.61,
   3.65, 3.70, 3.74, 3.79, 3.83, 3.88, 3.92, 3.97, 4.02, 4.07, 4.12, 4.17,
   4.22, 4.27, 4.32, 4.37, 4.42, 4.48, 4.53, 4.59, 4.64, 4.70, 4.75, 4.81,
   4.87, 4.93, 4.99, 5.05, 5.11, 5.17, 5.23, 5.30, 5.36, 5.42, 5.49, 5.56,
   5.62, 5.69, 5.76, 5.83, 5.90, 5.97, 6.04, 6.12, 6.19, 6.26, 6.34, 6.42,
   6.49, 6.57, 6.65, 6.73, 6.81, 6.90, 6.98, 7.06, 7.15, 7.23, 7.32, 7.41,
   7.50, 7.59, 7.68, 7.77, 7.87, 7.96, 8.06, 8.16, 8.25, 8.35, 8.45, 8.56,
   8.66, 8.76, 8.87, 8.98, 9.09, 9.20, 9.31, 9.42, 9.53, 9.65, 9.76, 9.88]

/-- Python list indexing `l[i]` (negative indices count from the end;
out-of-range raises `IndexError`). -/
def pyGet (l : List ℚ) (i : ℤ) : Except String ℚ :=
  if h : 0 ≤ i ∧ i.toNat < l.length then .ok (l.get ⟨i.toNat, h.2⟩)
  else if h2 : 0 ≤ i + l.length ∧ (i + l.length).toNat < l.length then
    .ok (l.get ⟨(i + l.length).toNat, h2.2⟩)
  else .error "IndexError"

/-- Total variant of Python list indexing, for the places where the source
indexes a nonempty table with an index known to be in Python range
(`-len ≤ i < len`); out of range yields the junk value `0` where Python
would raise. -/
def pyNth (l : List ℚ) (i : ℤ) : ℚ :=
  if h : 0 ≤ i ∧ i.toNat < l.length then l.get ⟨i.toNat, h.2⟩
  else if h2 : 0 ≤ i + l.length ∧ (i + l.length).toNat < l.length then
    l.get ⟨(i + l.length).toNat, h2.2⟩
  else 0

/-- Python `bisect.bisect` (right insertion point): on a sorted list it is
the number of entries `≤ value`. -/
def bisect_right (l : List ℚ) (value : ℚ) : ℕ :=
  l.countP (fun t => decide (t ≤ value))

/-- Python list slicing `l[::k]` for a positive step `k`: every `k`-th
element starting from index 0. -/
def pySliceStep (l : List ℚ) (k : ℕ) : List ℚ :=
  (List.range ((l.length + k - 1) / k)).map (fun j => l.getD (j * k) 0)

/-- The `while abs(value) >= 10` loop of `_cal_significand_and_exponent`:
divide by 10, incrementing the exponent. -/
def shrinkLoop (value : ℚ) (exponent : ℤ) : ℚ × ℤ :=
  if 10 ≤ |value| then shrinkLoop (value / 10) (exponent + 1)
  else (value, exponent)
termination_by (⌊|value|⌋).toNat
decreasing_by
  have h2 : |value / 10| = |value| / 10 := by
    rw [abs_div]; norm_num
  have h3 : |value| / 10 ≤ |value| - 9 := by linarith
  have h4 : ⌊|value| / 10⌋ ≤ ⌊|value| - 9⌋ := Int.floor_le_floor h3
  have h5 : ⌊|value| - 9⌋ = ⌊|value|⌋ - 9 := by
    rw [show (9 : ℚ) = ((9 : ℤ) : ℚ) by norm_num, Int.floor_sub_int]
  have h7 : (0 : ℤ) ≤ ⌊|value| / 10⌋ := by
    apply Int.floor_nonneg.mpr; positivity
  rw [h2]
  omega

/-- The `while abs(value) < 1` loop of `_cal_significand_and_exponent`:
multiply by 10, decrementing the exponent.  The loop runs only on a
non-zero value (the zero case returns earlier in the source), which is
what makes it terminate; the `0 < |value|` conjunct records that
invariant in the guard. -/
def growLoop (value : ℚ) (exponent : ℤ) : ℚ × ℤ :=
  if 0 < |value| ∧ |value| < 1 then growLoop (value * 10) (exponent - 1)
  else (value, exponent)
termination_by (⌊1 / |value|⌋).toNat
decreasing_by
  rename_i h
  obtain ⟨h0, h1⟩ := h
  have hx : (1 : ℚ) < 1 / |value| := by
    rw [lt_div_iff₀ h0]; linarith
  have hmul : |value * 10| = |value| * 10 := by
    rw [abs_mul]; norm_num
  have heq : 1 / |value * 10| = (1 / |value|) / 10 := by
    rw [hmul]; field_simp
  rw [heq]
  rcases le_or_lt 10 (1 / |value|) with hc | hc
  · have h3 : 1 / |value| / 10 ≤ 1 / |value| - 9 := by linarith
    have h4 : ⌊1 / |value| / 10⌋ ≤ ⌊1 / |value| - 9⌋ := Int.floor_le_floor h3
    have h5 : ⌊1 / |value| - 9⌋ = ⌊1 / |value|⌋ - 9 := by
      rw [show (9 : ℚ) = ((9 : ℤ) : ℚ) by norm_num, Int.floor_sub_int]
    have h7 : (0 : ℤ) ≤ ⌊1 / |value| / 10⌋ := by
      apply Int.floor_nonneg.mpr; positivity
    omega
  · have h3 : ⌊1 / |value| / 10⌋ < 1 := by
      apply Int.floor_lt.mpr
      push_cast
      linarith
    have h4 : (1 : ℤ) ≤ ⌊1 / |value|⌋ := by
      exact_mod_cast Int.le_floor.mpr (by exact_mod_cast le_of_lt hx)
    omega

/-- `_cal_significand_and_exponent`: decompose a value into a significand
and a power-of-ten exponent via the two normalization loops. -/
def cal_significand_and_exponent (value : ℚ) : ℚ × ℤ :=
  if value = 0 then (0, 0)
  else
    let p := shrinkLoop value 0
    growLoop p.1 p.2

/-- `_query_rounded_value_index`: index of the rounded value in the
(sorted, nonempty) table of available preferred numbers.  Mirrors the
source: `bisect.bisect` then floor/ceil/nearest selection; negative
values are replaced by their magnitude first; indices are Python ints,
so `floor_index` may be `-1` (which Python indexing wraps to the last
entry when reading `floor_value`). -/
def query_rounded_value_index (value : ℚ) (available_values : List ℚ)
    (round : String) : ℤ :=
  if value = 0 then 0
  else
    let value := if value < 0 then -value else value
    let ceil_index0 : ℤ := bisect_right available_values value
    let floor_index : ℤ := ceil_index0 - 1
    let ceil_index : ℤ :=
      if ceil_index0 ≥ available_values.length then ceil_index0 - 1
      else ceil_index0
    let floor_value := pyNth available_values floor_index
    let ceil_value := pyNth available_values ceil_index
    if round = "floor" then floor_index
    else if round = "ceil" then ceil_index
    else if 2 * value ≤ floor_value + ceil_value then floor_index
    else ceil_index

/-- The list of valid series sizes checked by `_launch_e_series_size_verify`. -/
def valid_series_sizes : List ℕ := [3, 6, 12, 24, 48, 96, 192]

/-- The list of valid series tags checked by `_launch_e_series_verify`. -/
def valid_series_tags : List String :=
  ["E3", "E6", "E12", "E24", "E48", "E96", "E192"]

/-- `_launch_e_series_size_verify`: raise unless the size is valid. -/
def launch_e_series_size_verify (series_size : ℕ) : Except String Unit :=
  if series_size ∈ valid_series_sizes then .ok () else .error "invalid size"

/-- `_launch_e_series_verify`: raise unless the series tag is valid. -/
def launch_e_series_verify (series : String) : Except String Unit :=
  if series ∈ valid_series_tags then .ok () else .error "invalid series"

/-- `_query_series_size`: map a valid series tag to its size. -/
def query_series_size (series : String) : Except String ℕ := do
  _ ← launch_e_series_verify series
  if series = "E3" then pure 3
  else if series = "E6" then pure 6
  else if series = "E12" then pure 12
  else if series = "E24" then pure 24
  else if series = "E48" then pure 48
  else if series = "E96" then pure 96
  else pure 192

/-- The strided table `PREFERRED_NUMBER_E24[::24 // size]` respectively
`PREFERRED_NUMBER_E192[::192 // size]`. -/
def available_preferred_numbers (series_size : ℕ) : List ℚ :=
  if series_size ≤ 24 then pySliceStep PREFERRED_NUMBER_E24 (24 / series_size)
  else pySliceStep PREFERRED_NUMBER_E192 (192 / series_size)

/-- `_query_available_preferred_numbers`: verify the size, then the
strided table. -/
def query_available_preferred_numbers (series_size : ℕ) :
    Except String (List ℚ) := do
  _ ← launch_e_series_size_verify series_size
  pure (available_preferred_numbers series_size)

/-- The `ESeriesValue` object: its stored fields together with the
derived attributes computed by `_cal_related_variables`. -/
structure ESeriesValue where
  series_exponent : ℤ
  series_size : ℕ
  exponent : ℤ
  is_positive : Bool
  series : String
  significant_figures : ℕ
  preferred_number : ℚ
  deriving Repr, DecidableEq

/-- `ESeriesValue.__init__`: validate the series size, then compute the
derived attributes; `_query_preferred_number` indexes the raw table at
`24 // size * series_exponent` (or the E192 analogue) with Python
indexing, which wraps negative indices and raises when out of range. -/
def ESeriesValue.init (series_exponent : ℤ) (series_size : ℕ)
    (exponent : ℤ) (positive : Bool) : Except String ESeriesValue := do
  _ ← launch_e_series_size_verify series_size
  let preferred ←
    if series_size ≤ 24 then
      pyGet PREFERRED_NUMBER_E24 ((24 / series_size : ℕ) * series_exponent)
    else
      pyGet PREFERRED_NUMBER_E192 ((192 / series_size : ℕ) * series_exponent)
  pure
    { series_exponent := series_exponent
      series_size := series_size
      exponent := exponent
      is_positive := positive
      series := "E" ++ toString series_size
      significant_figures := if series_size ≥ 48 then 3 else 2
      preferred_number := preferred }

/-- `ESeriesValue.to_scalar`: the signed value
`±preferred_number * 10 ** exponent`. -/
def ESeriesValue.to_scalar (v : ESeriesValue) : ℚ :=
  if v.is_positive then v.preferred_number * 10 ^ v.exponent
  else -v.preferred_number * 10 ^ v.exponent

/-- `ESeriesValue.create`: verify the series, decompose the value, round
the significand to a table index, and build the object. -/
def ESeriesValue.create (value : ℚ) (series : String := "E96")
    (round : String := "nearest") : Except String ESeriesValue := do
  _ ← launch_e_series_verify series
  let series_size ← query_series_size series
  let available ← query_available_preferred_numbers series_size
  let se := cal_significand_and_exponent value
  let series_exponent := query_rounded_value_index se.1 available round
  ESeriesValue.init series_exponent series_size se.2 (decide (0 ≤ se.1))

/-- `ESeriesValue.create` followed by `to_scalar`. -/
def createScalar (value : ℚ) (series : String) (round : String) :
    Except String ℚ :=
  (ESeriesValue.create value series round).map ESeriesValue.to_scalar

/-- `np.amin` on a list (junk value `0` on an empty array, where numpy
raises). -/
def listAmin : List ℚ → ℚ
  | [] => 0
  | x :: xs => xs.foldl min x

/-- `np.amax` on a list (junk value `0` on an empty array). -/
def listAmax : List ℚ → ℚ
  | [] => 0
  | x :: xs => xs.foldl max x

/-- Piecewise-linear interpolation through the nodes `(xs, ys)`.
`scipy.interpolate.CubicSpline` is an external numeric primitive, not
code of this repository; it is modelled by a computable interpolant with
the same contract used by the claims: defined on the closed knot range
and passing through the calibration nodes. -/
def interpEval : List ℚ → List ℚ → ℚ → ℚ
  | x0 :: x1 :: xs, y0 :: y1 :: ys, x =>
      if x ≤ x1 then y0 + (y1 - y0) * (x - x0) / (x1 - x0)
      else interpEval (x1 :: xs) (y1 :: ys) x
  | [_], y0 :: _, _ => y0
  | _, _, _ => 0

/-- Bounded bisection root-finding on the bracket `[a, b]`, the model of
`scipy.optimize.bisect` (an external primitive with a bounded iteration
count): halve the bracket `n` times keeping the sign change, then return
the midpoint. -/
def bisectRoot (f : ℚ → ℚ) (a b : ℚ) : ℕ → ℚ
  | 0 => (a + b) / 2
  | n + 1 =>
      let m := (a + b) / 2
      if f a * f m ≤ 0 then bisectRoot f a m n else bisectRoot f m b n

/-- The `LED` object: name, optional id and the calibration arrays; the
voltage/current limits and the interpolant are derived from them as in
`LED.__init__`. -/
structure LED where
  name : String
  voltages : List ℚ
  currents : List ℚ
  id : Option String := none

/-- `self._voltage_limit = (np.amin(voltages), np.amax(voltages))`. -/
def LED.voltage_limit (led : LED) : ℚ × ℚ :=
  (listAmin led.voltages, listAmax led.voltages)

/-- `self._current_limit = (np.amin(currents), np.amax(currents))`. -/
def LED.current_limit (led : LED) : ℚ × ℚ :=
  (listAmin led.currents, listAmax led.currents)

/-- `LED.cal_voltage`: evaluate the interpolant built by
`CubicSpline(currents, voltages, extrapolate=False)`, whose domain is
the closed interval from the first to the last knot; outside it the
spline yields NaN, embedded as `none`. -/
def LED.cal_voltage (led : LED) (current : ℚ) : Option ℚ :=
  if led.currents.headD 0 ≤ current ∧ current ≤ led.currents.getLastD 0 then
    some (interpEval led.currents led.voltages current)
  else none

/-- `LED.is_voltage_valid` (scalar case): strict open-interval test. -/
def LED.is_voltage_valid (led : LED) (voltage : ℚ) : Bool :=
  decide (led.voltage_limit.1 < voltage) && decide (voltage < led.voltage_limit.2)

/-- `LED.is_current_valid` (scalar case): strict open-interval test. -/
def LED.is_current_valid (led : LED) (current : ℚ) : Bool :=
  decide (led.current_limit.1 < current) && decide (current < led.current_limit.2)

/-- `LED.is_power_voltage_enough` (scalar case). -/
def LED.is_power_voltage_enough (led : LED) (power_voltage : ℚ) : Bool :=
  decide (led.voltage_limit.1 < power_voltage)

/-- `LED._cal_current` (scalar case): NaN (`none`) unless the voltage is
strictly inside the limits, otherwise a bisection search for the current
solving `cal_voltage(current) - voltage == 0` on the bracket given by
the current limits (`scipy.optimize.bisect`, modelled by `bisectRoot`
with its default-like bounded iteration count). -/
def LED.cal_current (led : LED) (voltage : ℚ) : Option ℚ :=
  if led.is_voltage_valid voltage = false then none
  else
    some (bisectRoot
      (fun current => interpEval led.currents led.voltages current - voltage)
      led.current_limit.1 led.current_limit.2 50)

/-- Modelled from the spec: the method
`cal_divider_resistance_range_if_power_supplied` invoked by the scripts
and the tests is not among the sources (only a commented-out
near-duplicate `get_divider_resistance_limit` and its callers are); per
the spec, the divider-resistance interval for a supply voltage is
`max = (supply_voltage - v_min) / i_min` (positive infinity when
`i_min == 0`), `min = max(0, (supply_voltage - v_max) / i_max)`, and the
call fails with `InvalidArgument` when `supply_voltage <= v_min`. -/
def LED.cal_divider_resistance_range_if_power_supplied (led : LED)
    (supply_voltage : ℚ) : Except String (ℚ × WithTop ℚ) :=
  if supply_voltage ≤ led.voltage_limit.1 then
    .error "power voltage too small"
  else
    let resistance_min : ℚ :=
      max 0 ((supply_voltage - led.voltage_limit.2) / led.current_limit.2)
    let resistance_max : WithTop ℚ :=
      if led.current_limit.1 = 0 then ⊤
      else ((supply_voltage - led.voltage_limit.1) / led.current_limit.1 : ℚ)
    .ok (resistance_min, resistance_max)

/-- The preset constant `TYPICAL_LED`. -/
def TYPICAL_LED : LED :=
  { name := "typical LED"
    voltages := [2.7524, 2.8800, 3.0030, 3.1260, 3.2490, 3.3766]
    currents := [0.0, 0.004772, 0.00976, 0.014748, 0.019735, 0.024605] }

/-- The preset constant `TYPICAL_LED_RED`. -/
def TYPICAL_LED_RED : LED :=
  { name := "typical LED red"
    voltages := [1.7736, 1.82944, 1.88781, 1.94365, 2.0, 2.05533]
    currents := [0.0, 0.005, 0.010, 0.015, 0.020, 0.025] }

/-- The LED fixture of the repository test suite: voltages
`[0, 1, 2, 5]`, currents `0.2 * [0, 1, 2, 5] + 1`. -/
def testLED : LED :=
  { name := "test"
    voltages := [0, 1, 2, 5]
    currents := [1, 1.2, 1.4, 2] }

/-- Modelled from the spec: the standard-resistance table (absent from
the sources; only the spec describes it) is the 24-entry per-decade base
set multiplied by the powers of ten 1 to 1e6 and sorted; the per-decade
entries stay below ten times the decade start, so the concatenation by
decade is already sorted. -/
def STANDARD_RESISTANCES : List ℚ :=
  (List.range 7).flatMap
    (fun k => PREFERRED_NUMBER_E24.map (fun b => b * 10 ^ k))

/-- Modelled from the spec: `nearest_standard_resistance` (absent from
the sources) takes the binary-search insertion point in the sorted
table, clamps to the extremes when the value falls below the first or
above the last entry, and otherwise returns the nearer of the two
bracketing entries, ties broken toward the lower one. -/
def nearest_standard_resistance (value : ℚ) : ℚ :=
  let t := STANDARD_RESISTANCES
  let i := bisect_right t value
  if i = 0 then t.headD 0
  else if i = t.length then t.getLastD 0
  else
    let left := t.getD (i - 1) 0
    let right := t.getD i 0
    if value - left ≤ right - value then left else right

/-- Modelled from the spec: `round_up_standard_resistance` (absent from
the sources) returns the first table entry greater than or equal to the
value, or a not-found sentinel when the value exceeds the largest
entry. -/
def round_up_standard_resistance (value : ℚ) : Option ℚ :=
  let t := STANDARD_RESISTANCES
  let i := t.countP (fun x => decide (x < value))
  if i = t.length then none else some (t.getD i 0)

/-- Modelled from the spec: `round_down_standard_resistance` (absent
from the sources) returns the largest table entry less than or equal to
the value, or a not-found sentinel when the value is below the smallest
entry. -/
def round_down_standard_resistance (value : ℚ) : Option ℚ :=
  let t := STANDARD_RESISTANCES
  let i := bisect_right t value
  if i = 0 then none else some (t.getD (i - 1) 0)

/-! ### Properties of the significand/exponent decomposition -/

theorem shrinkLoop_spec (q : ℚ) (e : ℤ) :
    (shrinkLoop q e).1 * 10 ^ (shrinkLoop q e).2 = q * 10 ^ e ∧
    |(shrinkLoop q e).1| < 10 ∧
    ((shrinkLoop q e).1 = 0 ↔ q = 0) ∧
    (1 ≤ |q| → 1 ≤ |(shrinkLoop q e).1|) ∧
    (0 < (shrinkLoop q e).1 ↔ 0 < q) := by
  induction q, e using shrinkLoop.induct with
  | case1 q e h ih =>
    rw [shrinkLoop, if_pos h]
    obtain ⟨ih1, ih2, ih3, ih4, ih5⟩ := ih
    refine ⟨?_, ih2, ?_, ?_, ?_⟩
    · rw [ih1, zpow_add₀ (by norm_num : (10:ℚ) ≠ 0)]
      field_simp
      ring
    · rw [ih3, div_eq_zero_iff]
      norm_num
    · intro _
      apply ih4
      rw [abs_div, le_div_iff₀ (by norm_num : (0:ℚ) < |10|)]
      have h10 : |(10:ℚ)| = 10 := by norm_num
      rw [h10]
      linarith
    · rw [ih5]
      constructor
      · intro hq
        linarith
      · intro hq
        linarith
  | case2 q e h =>
    rw [shrinkLoop, if_neg h]
    push_neg at h
    exact ⟨rfl, h, Iff.rfl, fun h1 => h1, Iff.rfl⟩

theorem growLoop_spec (q : ℚ) (e : ℤ) :
    (growLoop q e).1 * 10 ^ (growLoop q e).2 = q * 10 ^ e ∧
    (q ≠ 0 → 1 ≤ |(growLoop q e).1|) ∧
    (|q| < 10 → |(growLoop q e).1| < 10) ∧
    (0 < (growLoop q e).1 ↔ 0 < q) ∧
    ((growLoop q e).1 = 0 ↔ q = 0) := by
  induction q, e using growLoop.induct with
  | case1 q e h ih =>
    rw [growLoop, if_pos h]
    obtain ⟨h0, h1⟩ := h
    obtain ⟨ih1, ih2, ih3, ih4, ih5⟩ := ih
    have hq : q ≠ 0 := abs_pos.mp h0
    refine ⟨?_, ?_, ?_, ?_, ?_⟩
    · rw [ih1, zpow_sub₀ (by norm_num : (10:ℚ) ≠ 0)]
      field_simp
      ring
    · intro _
      apply ih2
      intro hc
      exact hq (by linarith [mul_eq_zero.mp hc |>.resolve_right (by norm_num)])
    · intro _
      apply ih3
      rw [abs_mul]
      have h10 : |(10:ℚ)| = 10 := by norm_num
      rw [h10]
      linarith
    · rw [ih4]
      constructor
      · intro hc
        nlinarith
      · intro hc
        nlinarith
    · rw [ih5, mul_eq_zero]
      norm_num
  | case2 q e h =>
    rw [growLoop, if_neg h]
    push_neg at h
    refine ⟨rfl, ?_, fun h1 => h1, Iff.rfl, Iff.rfl⟩
    intro hq
    exact h (abs_pos.mpr hq)

theorem cal_significand_and_exponent_spec (v : ℚ) (hv : v ≠ 0) :
    (cal_significand_and_exponent v).1 * 10 ^ (cal_significand_and_exponent v).2 = v ∧
    1 ≤ |(cal_significand_and_exponent v).1| ∧
    |(cal_significand_and_exponent v).1| < 10 ∧
    (0 < (cal_significand_and_exponent v).1 ↔ 0 < v) := by
  rw [cal_significand_and_exponent, if_neg hv]
  obtain ⟨s1, s2, s3, s4, s5⟩ := shrinkLoop_spec v 0
  obtain ⟨g1, g2, g3, g4, g5⟩ := growLoop_spec (shrinkLoop v 0).1 (shrinkLoop v 0).2
  have hsnz : (shrinkLoop v 0).1 ≠ 0 := fun hc => hv (s3.mp hc)
  refine ⟨?_, g2 hsnz, g3 s2, ?_⟩
  · rw [g1, s1]
    norm_num
  · rw [g4, s5]

theorem sig_exp_unique (s s' : ℚ) (e e' : ℤ) (hs1 : 1 ≤ |s|) (hs2 : |s| < 10)
    (ht1 : 1 ≤ |s'|) (ht2 : |s'| < 10) (heq : s * 10 ^ e = s' * 10 ^ e') :
    s = s' ∧ e = e' := by
  have key : ∀ (a a' : ℚ) (b b' : ℤ), 1 ≤ |a| → |a| < 10 → 1 ≤ |a'| →
      a * 10 ^ b = a' * 10 ^ b' → b ≤ b' → b' ≤ b := by
    intro a a' b b' ha1 ha2 ha1' hab hle
    by_contra hgt
    push_neg at hgt
    have hk : (1 : ℤ) ≤ b' - b := by omega
    have habs : |a| * 10 ^ b = |a'| * 10 ^ b' := by
      have hcong := congrArg abs hab
      simp only [abs_mul] at hcong
      rwa [abs_of_pos (zpow_pos (by norm_num : (0:ℚ) < 10) b),
        abs_of_pos (zpow_pos (by norm_num : (0:ℚ) < 10) b')] at hcong
    have hpow : (10:ℚ) ^ b' = 10 ^ b * 10 ^ (b' - b) := by
      rw [← zpow_add₀ (by norm_num : (10:ℚ) ≠ 0)]
      congr 1
      omega
    have hbpos : (0:ℚ) < 10 ^ b := zpow_pos (by norm_num) b
    have h10k : (10:ℚ) ≤ 10 ^ (b' - b) := by
      calc (10:ℚ) = 10 ^ (1:ℤ) := by norm_num
      _ ≤ 10 ^ (b' - b) := by
        apply zpow_le_zpow_right₀ (by norm_num) hk
    have hcancel : |a| = |a'| * 10 ^ (b' - b) := by
      have h2 : |a| * 10 ^ b = |a'| * 10 ^ (b' - b) * 10 ^ b := by
        rw [habs, hpow]
        ring
      exact mul_right_cancel₀ hbpos.ne' h2
    nlinarith
  have hee : e = e' := by
    rcases le_total e e' with hle | hle
    · exact le_antisymm hle (key s s' e e' hs1 hs2 ht1 heq hle)
    · exact le_antisymm (key s' s e' e ht1 ht2 hs1 heq.symm hle) hle
  subst hee
  refine ⟨?_, rfl⟩
  have hpow : (10:ℚ) ^ e ≠ 0 := zpow_ne_zero e (by norm_num)
  exact mul_right_cancel₀ hpow heq

theorem cal_sig_exact (s : ℚ) (e : ℤ) (h1 : 1 ≤ |s|) (h2 : |s| < 10) :
    cal_significand_and_exponent (s * 10 ^ e) = (s, e) := by
  have hs : s ≠ 0 := by
    intro hc
    rw [hc] at h1
    norm_num at h1
  have hv : s * 10 ^ e ≠ 0 :=
    mul_ne_zero hs (zpow_ne_zero e (by norm_num))
  obtain ⟨c1, c2, c3, _⟩ := cal_significand_and_exponent_spec (s * 10 ^ e) hv
  obtain ⟨hes, hee⟩ := sig_exp_unique (cal_significand_and_exponent (s * 10 ^ e)).1 s
    (cal_significand_and_exponent (s * 10 ^ e)).2 e c2 c3 h1 h2 (by rw [c1])
  exact Prod.ext hes hee

theorem cal_sig_neg (v : ℚ) (hv : v ≠ 0) :
    cal_significand_and_exponent (-v) =
      (-(cal_significand_and_exponent v).1, (cal_significand_and_exponent v).2) := by
  obtain ⟨c1, c2, c3, _⟩ := cal_significand_and_exponent_spec v hv
  have h1 : 1 ≤ |(-(cal_significand_and_exponent v).1)| := by rwa [abs_neg]
  have h2 : |(-(cal_significand_and_exponent v).1)| < 10 := by rwa [abs_neg]
  have : -v = -(cal_significand_and_exponent v).1 * 10 ^ (cal_significand_and_exponent v).2 := by
    rw [neg_mul, c1]
  rw [this]
  exact cal_sig_exact _ _ h1 h2

/-! ### `bisect_right` on a strictly sorted table -/

theorem bisect_right_le_length (t : List ℚ) (u : ℚ) :
    bisect_right t u ≤ t.length :=
  List.countP_le_length _

theorem bisect_right_mono (t : List ℚ) (a b : ℚ) (hab : a ≤ b) :
    bisect_right t a ≤ bisect_right t b := by
  apply List.countP_mono_left
  intro x _ hx
  simp only [decide_eq_true_eq] at hx ⊢
  linarith

theorem bisect_right_iff (t : List ℚ) (ht : t.Pairwise (· < ·)) (u : ℚ) :
    ∀ (j : ℕ) (hj : j < t.length), (j < bisect_right t u ↔ t.get ⟨j, hj⟩ ≤ u) := by
  induction t with
  | nil =>
    intro j hj
    simp at hj
  | cons x xs ih =>
    intro j hj
    obtain ⟨hx, hxs⟩ := List.pairwise_cons.mp ht
    rw [bisect_right, List.countP_cons]
    rcases le_or_lt x u with hxu | hxu
    · cases j with
      | zero =>
        simp [hxu]
      | succ k =>
        have hk : k < xs.length := by simpa using hj
        have := ih hxs k hk
        rw [bisect_right] at this
        simp only [decide_eq_true_eq, hxu, if_pos]
        constructor
        · intro hlt
          exact (this.mp (by omega))
        · intro hle
          have := this.mpr hle
          omega
    · have hzero : xs.countP (fun v => decide (v ≤ u)) = 0 := by
        apply List.countP_eq_zero.mpr
        intro a ha
        simp only [decide_eq_true_eq]
        intro hau
        exact absurd (lt_of_lt_of_le (hx a ha) hau) (not_lt.mpr (le_of_lt hxu))
      cases j with
      | zero =>
        simp [hzero, hxu, not_le.mpr hxu]
      | succ k =>
        have hk : k < xs.length := by simpa using hj
        have hmem : xs.get ⟨k, hk⟩ ∈ xs := List.get_mem xs k hk
        have hult : u < xs.get ⟨k, hk⟩ := lt_trans hxu (hx _ hmem)
        have hult2 : u < xs[k] := hult
        simp [hzero, not_le.mpr hxu, not_le.mpr hult2]

theorem bisect_right_get (t : List ℚ) (ht : t.Pairwise (· < ·)) (i : ℕ)
    (hi : i < t.length) : bisect_right t (t.get ⟨i, hi⟩) = i + 1 := by
  have hup : i < bisect_right t (t.get ⟨i, hi⟩) :=
    (bisect_right_iff t ht _ i hi).mpr le_rfl
  rcases Nat.lt_or_ge (i + 1) t.length with hlt | hge
  · have hnext : ¬ (i + 1 < bisect_right t (t.get ⟨i, hi⟩)) := by
      rw [bisect_right_iff t ht _ (i+1) hlt]
      apply not_le.mpr
      exact List.pairwise_iff_get.mp ht ⟨i, hi⟩ ⟨i+1, hlt⟩ (by simp)
    omega
  · have := bisect_right_le_length t (t.get ⟨i, hi⟩)
    omega

/-! ### Properties of `query_rounded_value_index` -/

theorem pyNth_coe (t : List ℚ) (i : ℕ) (hi : i < t.length) :
    pyNth t (i : ℤ) = t.get ⟨i, hi⟩ := by
  rw [pyNth, dif_pos ⟨Int.ofNat_nonneg i, by simpa using hi⟩]
  simp

theorem qrvi_zero (t : List ℚ) (m : String) :
    query_rounded_value_index 0 t m = 0 := by
  rw [query_rounded_value_index, if_pos rfl]

theorem qrvi_unfold (v : ℚ) (t : List ℚ) (m : String) (hv : v ≠ 0)
    (hvn : ¬ (v < 0)) :
    query_rounded_value_index v t m =
      if m = "floor" then (bisect_right t v : ℤ) - 1
      else if m = "ceil" then
        (if (bisect_right t v : ℤ) ≥ t.length then (bisect_right t v : ℤ) - 1
         else (bisect_right t v : ℤ))
      else if 2 * v ≤ pyNth t ((bisect_right t v : ℤ) - 1) +
          pyNth t (if (bisect_right t v : ℤ) ≥ t.length
            then (bisect_right t v : ℤ) - 1 else (bisect_right t v : ℤ)) then
        (bisect_right t v : ℤ) - 1
      else
        (if (bisect_right t v : ℤ) ≥ t.length then (bisect_right t v : ℤ) - 1
         else (bisect_right t v : ℤ)) := by
  rw [query_rounded_value_index, if_neg hv, if_neg hvn]

theorem qrvi_neg (v : ℚ) (t : List ℚ) (m : String) :
    query_rounded_value_index (-v) t m = query_rounded_value_index v t m := by
  rcases lt_trichotomy v 0 with hv | hv | hv
  · have h1 : (-v : ℚ) ≠ 0 := by intro hc; apply absurd hv; rw [show v = 0 by linarith]; norm_num
    have h2 : v ≠ 0 := ne_of_lt hv
    rw [query_rounded_value_index, query_rounded_value_index, if_neg h1, if_neg h2]
    have h3 : ¬ ((-v : ℚ) < 0) := by linarith
    rw [if_neg h3, if_pos hv]
  · rw [hv]
    norm_num
  · have h1 : (-v : ℚ) ≠ 0 := by intro hc; apply absurd hv; rw [show v = 0 by linarith]; norm_num
    have h2 : v ≠ 0 := ne_of_gt hv
    rw [query_rounded_value_index, query_rounded_value_index, if_neg h1, if_neg h2]
    have h3 : ((-v : ℚ) < 0) := by linarith
    have h4 : ¬ (v < 0) := by linarith
    rw [if_pos h3, if_neg h4, neg_neg]

theorem qrvi_abs (v : ℚ) (t : List ℚ) (m : String) :
    query_rounded_value_index v t m = query_rounded_value_index |v| t m := by
  rcases le_or_lt 0 v with hv | hv
  · rw [abs_of_nonneg hv]
  · rw [abs_of_neg hv]
    exact (qrvi_neg v t m).symm

theorem qrvi_mode_else (v : ℚ) (t : List ℚ) (m : String)
    (h1 : m ≠ "floor") (h2 : m ≠ "ceil") :
    query_rounded_value_index v t m = query_rounded_value_index v t "nearest" := by
  rcases eq_or_ne v 0 with rfl | hv
  · rw [qrvi_zero, qrvi_zero]
  · have habs : |v| ≠ 0 := abs_ne_zero.mpr hv
    have hnn : ¬ (|v| < 0) := not_lt.mpr (abs_nonneg v)
    rw [qrvi_abs v t m, qrvi_abs v t "nearest",
      qrvi_unfold _ _ _ habs hnn, qrvi_unfold _ _ _ habs hnn,
      if_neg h1, if_neg h2,
      if_neg (by decide : ¬ (("nearest" : String) = "floor")),
      if_neg (by decide : ¬ (("nearest" : String) = "ceil"))]

theorem qrvi_lower_bound (v : ℚ) (t : List ℚ) (m : String) :
    -1 ≤ query_rounded_value_index v t m := by
  rcases eq_or_ne v 0 with rfl | hv
  · rw [qrvi_zero]
    omega
  · have habs : |v| ≠ 0 := abs_ne_zero.mpr hv
    have hnn : ¬ (|v| < 0) := not_lt.mpr (abs_nonneg v)
    rw [qrvi_abs v t m, qrvi_unfold _ _ _ habs hnn]
    split_ifs <;> omega

theorem qrvi_nearest_mono (t : List ℚ) (a b : ℚ) (ha : 0 < a) (hab : a ≤ b) :
    query_rounded_value_index a t "nearest" ≤
      query_rounded_value_index b t "nearest" := by
  have hb : 0 < b := lt_of_lt_of_le ha hab
  rw [qrvi_unfold a t "nearest" (ne_of_gt ha) (not_lt.mpr (le_of_lt ha)),
    qrvi_unfold b t "nearest" (ne_of_gt hb) (not_lt.mpr (le_of_lt hb)),
    if_neg (by decide : ¬ (("nearest" : String) = "floor")),
    if_neg (by decide : ¬ (("nearest" : String) = "ceil")),
    if_neg (by decide : ¬ (("nearest" : String) = "floor")),
    if_neg (by decide : ¬ (("nearest" : String) = "ceil"))]
  have hmono : bisect_right t a ≤ bisect_right t b := bisect_right_mono t a b hab
  rcases eq_or_lt_of_le hmono with heq | hlt
  · rw [heq]
    split_ifs <;> first | omega | linarith
  · split_ifs <;> omega

theorem qrvi_nonneg_of_one_le (t : List ℚ) (hne : t ≠ [])
    (hhead : t.headD 0 = 1) (v : ℚ) (hv : 1 ≤ v) (m : String) :
    0 ≤ query_rounded_value_index v t m ∧
      query_rounded_value_index v t m < t.length := by
  have hvz : v ≠ 0 := by intro hc; rw [hc] at hv; norm_num at hv
  have hbl : 1 ≤ bisect_right t v := by
    obtain ⟨x, xs, rfl⟩ := List.exists_cons_of_ne_nil hne
    simp only [List.headD_cons] at hhead
    rw [bisect_right, List.countP_cons]
    have hx : decide (x ≤ v) = true := by
      rw [hhead]
      simpa using hv
    rw [hx, if_pos rfl]
    omega
  have hbu : bisect_right t v ≤ t.length := bisect_right_le_length t v
  have hlen : 1 ≤ t.length := by
    cases t with
    | nil => exact absurd rfl hne
    | cons x xs => simp
  rw [qrvi_unfold v t m hvz (not_lt.mpr (by linarith : (0:ℚ) ≤ v))]
  constructor
  · split_ifs <;> omega
  · split_ifs <;> omega

theorem qrvi_get (t : List ℚ) (ht : t.Pairwise (· < ·))
    (hpos : ∀ x ∈ t, 0 < x) (i : ℕ) (hi : i < t.length) :
    query_rounded_value_index (t.get ⟨i, hi⟩) t "floor" = i ∧
    query_rounded_value_index (t.get ⟨i, hi⟩) t "nearest" = i ∧
    (i + 1 < t.length →
      query_rounded_value_index (t.get ⟨i, hi⟩) t "ceil" = (i : ℤ) + 1) ∧
    (i + 1 = t.length →
      query_rounded_value_index (t.get ⟨i, hi⟩) t "ceil" = i) := by
  have hvpos : 0 < t.get ⟨i, hi⟩ := hpos _ (List.get_mem t i hi)
  have hv : t.get ⟨i, hi⟩ ≠ 0 := ne_of_gt hvpos
  have hvn : ¬ (t.get ⟨i, hi⟩ < 0) := not_lt.mpr (le_of_lt hvpos)
  have hb : bisect_right t (t.get ⟨i, hi⟩) = i + 1 := bisect_right_get t ht i hi
  have hfloor_idx : ((bisect_right t (t.get ⟨i, hi⟩) : ℤ)) - 1 = (i : ℤ) := by
    rw [hb]
    push_cast
    ring
  refine ⟨?_, ?_, ?_, ?_⟩
  · rw [qrvi_unfold _ t "floor" hv hvn, if_pos rfl, hfloor_idx]
  · rw [qrvi_unfold _ t "nearest" hv hvn,
      if_neg (by decide : ¬ (("nearest" : String) = "floor")),
      if_neg (by decide : ¬ (("nearest" : String) = "ceil"))]
    rw [hfloor_idx, pyNth_coe t i hi]
    rcases Nat.lt_or_ge (i + 1) t.length with hlt | hge
    · have hcond : ¬ ((bisect_right t (t.get ⟨i, hi⟩) : ℤ) ≥ t.length) := by
        rw [hb]
        push_cast
        omega
      rw [if_neg hcond, hb]
      have hcast : ((i + 1 : ℕ) : ℤ) = ((i + 1 : ℕ) : ℤ) := rfl
      rw [show ((i + 1 : ℕ) : ℤ) = (((i + 1 : ℕ) : ℕ) : ℤ) from rfl]
      rw [pyNth_coe t (i + 1) hlt]
      have hmono : t.get ⟨i, hi⟩ < t.get ⟨i + 1, hlt⟩ :=
        List.pairwise_iff_get.mp ht ⟨i, hi⟩ ⟨i + 1, hlt⟩ (by simp)
      rw [if_pos (by linarith)]
    · have hcond : ((bisect_right t (t.get ⟨i, hi⟩) : ℤ) ≥ t.length) := by
        rw [hb]
        push_cast
        omega
      rw [if_pos hcond, ite_self]
  · intro hlt
    rw [qrvi_unfold _ t "ceil" hv hvn,
      if_neg (by decide : ¬ (("ceil" : String) = "floor")), if_pos rfl]
    have hcond : ¬ ((bisect_right t (t.get ⟨i, hi⟩) : ℤ) ≥ t.length) := by
      rw [hb]
      push_cast
      omega
    rw [if_neg hcond, hb]
    push_cast
    ring
  · intro heq
    rw [qrvi_unfold _ t "ceil" hv hvn,
      if_neg (by decide : ¬ (("ceil" : String) = "floor")), if_pos rfl]
    have hcond : ((bisect_right t (t.get ⟨i, hi⟩) : ℤ) ≥ t.length) := by
      rw [hb]
      push_cast
      omega
    rw [if_pos hcond, hfloor_idx]

/-! ### The strided preferred-number tables -/

theorem pySliceStep_length (l : List ℚ) (k : ℕ) :
    (pySliceStep l k).length = (l.length + k - 1) / k := by
  simp [pySliceStep]

theorem slice_index_lt (L k j : ℕ) (hk : 0 < k) (hj : j < (L + k - 1) / k) :
    j * k < L := by
  have h2 : (j + 1) * k ≤ L + k - 1 := (Nat.le_div_iff_mul_le hk).mp hj
  have h3 : j * k + k ≤ L + k - 1 := by
    rw [Nat.add_mul, one_mul] at h2
    exact h2
  omega

theorem pySliceStep_getD (l : List ℚ) (k j : ℕ)
    (hj : j < (pySliceStep l k).length) :
    (pySliceStep l k).getD j 0 = l.getD (j * k) 0 := by
  rw [pySliceStep_length] at hj
  rw [pySliceStep, List.getD_eq_get?, List.get?_map, List.get?_range hj]
  rfl

theorem pySliceStep_get (l : List ℚ) (k j : ℕ)
    (hj : j < (pySliceStep l k).length) :
    (pySliceStep l k).get ⟨j, hj⟩ = l.getD (j * k) 0 := by
  rw [← pySliceStep_getD l k j hj, List.getD_eq_get?,
    List.get?_eq_get hj]
  rfl

theorem pySliceStep_index_lt (l : List ℚ) (k j : ℕ) (hk : 0 < k)
    (hj : j < (pySliceStep l k).length) : j * k < l.length := by
  rw [pySliceStep_length] at hj
  exact slice_index_lt l.length k j hk hj

theorem pySliceStep_pairwise (l : List ℚ) (k : ℕ) (hk : 0 < k)
    (hl : l.Pairwise (· < ·)) :
    (pySliceStep l k).Pairwise (· < ·) := by
  apply List.pairwise_iff_get.mpr
  intro i j hij
  rw [pySliceStep_get l k i.1 i.2, pySliceStep_get l k j.1 j.2]
  have hjk : j.1 * k < l.length := pySliceStep_index_lt l k j.1 hk j.2
  have hik : i.1 * k < j.1 * k := (Nat.mul_lt_mul_right hk).mpr hij
  rw [List.getD_eq_get?, List.get?_eq_get (lt_trans hik hjk),
    List.getD_eq_get?, List.get?_eq_get hjk]
  exact List.pairwise_iff_get.mp hl ⟨i.1 * k, lt_trans hik hjk⟩ ⟨j.1 * k, hjk⟩ hik

theorem pySliceStep_forall (l : List ℚ) (k : ℕ) (hk : 0 < k)
    (P : ℚ → Prop) (hP : ∀ x ∈ l, P x) :
    ∀ x ∈ pySliceStep l k, P x := by
  intro x hx
  obtain ⟨⟨j, hj⟩, rfl⟩ := List.mem_iff_get.mp hx
  rw [pySliceStep_get l k j hj]
  have hjk : j * k < l.length := pySliceStep_index_lt l k j hk hj
  rw [List.getD_eq_get?, List.get?_eq_get hjk]
  exact hP _ (List.get_mem l _ _)

theorem pySliceStep_headD (l : List ℚ) (k : ℕ)
    (h : 0 < (pySliceStep l k).length) :
    (pySliceStep l k).headD 0 = l.getD 0 0 := by
  have h0 := pySliceStep_getD l k 0 h
  rw [Nat.zero_mul] at h0
  rw [← h0]
  cases hlist : pySliceStep l k with
  | nil =>
    rw [hlist] at h
    simp at h
  | cons a as => rfl

theorem E24_pairwise : PREFERRED_NUMBER_E24.Pairwise (· < ·) := by
  apply List.chain'_iff_pairwise.mp
  norm_num [PREFERRED_NUMBER_E24, List.chain'_cons, List.chain'_singleton]

set_option maxRecDepth 16384 in
theorem E192_pairwise : PREFERRED_NUMBER_E192.Pairwise (· < ·) := by
  apply List.chain'_iff_pairwise.mp
  norm_num [PREFERRED_NUMBER_E192, List.chain'_cons, List.chain'_singleton]

set_option maxRecDepth 16384 in
theorem E24_bounds : ∀ x ∈ PREFERRED_NUMBER_E24, 1 ≤ x ∧ x < 10 := by
  norm_num [PREFERRED_NUMBER_E24, List.forall_mem_cons]

theorem head_le_of_sorted (l : List ℚ) (hl : l.Pairwise (· < ·)) :
    ∀ x ∈ l, l.headD 0 ≤ x := by
  cases l with
  | nil =>
    intro x hx
    simp at hx
  | cons a as =>
    intro x hx
    rcases List.mem_cons.mp hx with rfl | hx
    · simp
    · simp only [List.headD_cons]
      exact le_of_lt ((List.pairwise_cons.mp hl).1 x hx)

theorem le_getLastD_of_sorted (l : List ℚ) (hl : l.Pairwise (· < ·)) :
    ∀ x ∈ l, x ≤ l.getLastD 0 := by
  induction l with
  | nil =>
    intro x hx
    simp at hx
  | cons a as ih =>
    intro x hx
    obtain ⟨ha, has⟩ := List.pairwise_cons.mp hl
    cases as with
    | nil =>
      rcases List.mem_cons.mp hx with rfl | hx
      · simp
      · simp at hx
    | cons b bs =>
      have hlast : (a :: b :: bs).getLastD 0 = (b :: bs).getLastD 0 := rfl
      have hmem : (b :: bs).getLastD 0 ∈ b :: bs := by
        rw [List.getLastD_eq_getLast?, List.getLast?_eq_getLast _ (by simp)]
        exact List.getLast_mem _
      rcases List.mem_cons.mp hx with rfl | hx
      · rw [hlast]
        exact le_of_lt (ha _ hmem)
      · rw [hlast]
        exact ih has x hx

set_option maxRecDepth 16384 in
theorem E192_getLastD : PREFERRED_NUMBER_E192.getLastD 0 = 9.88 := by rfl

set_option maxRecDepth 16384 in
theorem E192_headD : PREFERRED_NUMBER_E192.headD 0 = 1 := by
  norm_num [PREFERRED_NUMBER_E192]

theorem E192_bounds : ∀ x ∈ PREFERRED_NUMBER_E192, 1 ≤ x ∧ x < 10 := by
  intro x hx
  constructor
  · have h := head_le_of_sorted _ E192_pairwise x hx
    rwa [E192_headD] at h
  · have h := le_getLastD_of_sorted _ E192_pairwise x hx
    rw [E192_getLastD] at h
    have h2 : (9.88 : ℚ) < 10 := by norm_num
    linarith

theorem E24_head : PREFERRED_NUMBER_E24.getD 0 0 = 1 := by
  norm_num [PREFERRED_NUMBER_E24]

set_option maxRecDepth 16384 in
theorem E192_head : PREFERRED_NUMBER_E192.getD 0 0 = 1 := by
  norm_num [PREFERRED_NUMBER_E192]

theorem E24_length : PREFERRED_NUMBER_E24.length = 24 := by rfl

theorem E192_length : PREFERRED_NUMBER_E192.length = 192 := by rfl

theorem avail_facts_of (base : List ℚ) (k size : ℕ) (hk : 0 < k)
    (heq : available_preferred_numbers size = pySliceStep base k)
    (hbp : base.Pairwise (· < ·))
    (hbb : ∀ x ∈ base, 1 ≤ x ∧ x < 10)
    (hbh : base.getD 0 0 = 1)
    (hlen : (base.length + k - 1) / k = size)
    (hpos : 0 < size) :
    (available_preferred_numbers size).Pairwise (· < ·) ∧
    (available_preferred_numbers size).length = size ∧
    (available_preferred_numbers size).headD 0 = 1 ∧
    (∀ x ∈ available_preferred_numbers size, 1 ≤ x ∧ x < 10) := by
  rw [heq]
  have hlength : (pySliceStep base k).length = size := by
    rw [pySliceStep_length, hlen]
  refine ⟨pySliceStep_pairwise base k hk hbp, hlength, ?_,
    pySliceStep_forall base k hk _ hbb⟩
  rw [pySliceStep_headD base k (by rw [hlength]; exact hpos), hbh]

set_option maxRecDepth 16384 in
theorem avail_facts (size : ℕ) (h : size ∈ valid_series_sizes) :
    (available_preferred_numbers size).Pairwise (· < ·) ∧
    (available_preferred_numbers size).length = size ∧
    (available_preferred_numbers size).headD 0 = 1 ∧
    (∀ x ∈ available_preferred_numbers size, 1 ≤ x ∧ x < 10) := by
  rw [valid_series_sizes] at h
  fin_cases h
  · exact avail_facts_of PREFERRED_NUMBER_E24 8 3 (by norm_num) rfl
      E24_pairwise E24_bounds E24_head rfl (by norm_num)
  · exact avail_facts_of PREFERRED_NUMBER_E24 4 6 (by norm_num) rfl
      E24_pairwise E24_bounds E24_head rfl (by norm_num)
  · exact avail_facts_of PREFERRED_NUMBER_E24 2 12 (by norm_num) rfl
      E24_pairwise E24_bounds E24_head rfl (by norm_num)
  · exact avail_facts_of PREFERRED_NUMBER_E24 1 24 (by norm_num) rfl
      E24_pairwise E24_bounds E24_head rfl (by norm_num)
  · exact avail_facts_of PREFERRED_NUMBER_E192 4 48 (by norm_num) rfl
      E192_pairwise E192_bounds E192_head rfl (by norm_num)
  · exact avail_facts_of PREFERRED_NUMBER_E192 2 96 (by norm_num) rfl
      E192_pairwise E192_bounds E192_head rfl (by norm_num)
  · exact avail_facts_of PREFERRED_NUMBER_E192 1 192 (by norm_num) rfl
      E192_pairwise E192_bounds E192_head rfl (by norm_num)

set_option maxRecDepth 16384 in
theorem avail_ne_nil (size : ℕ) (h : size ∈ valid_series_sizes) :
    available_preferred_numbers size ≠ [] := by
  obtain ⟨-, hlen, -, -⟩ := avail_facts size h
  have hpos : 0 < size := by
    rw [valid_series_sizes] at h
    fin_cases h <;> norm_num
  intro hc
  rw [hc] at hlen
  simp only [List.length_nil] at hlen
  omega

theorem get_eq_getD (l : List ℚ) (n : ℕ) (h : n < l.length) :
    l.get ⟨n, h⟩ = l.getD n 0 := by
  rw [List.getD_eq_get?, List.get?_eq_get h, Option.getD_some]

theorem pyGet_slice (base : List ℚ) (k size : ℕ) (idx : ℤ)
    (hk : 0 < k) (h0 : 0 ≤ idx) (hlt : idx < (size : ℤ))
    (hlen : (pySliceStep base k).length = size)
    (hks : k * size ≤ base.length) :
    pyGet base (((k : ℕ) : ℤ) * idx) =
      .ok ((pySliceStep base k).getD idx.toNat 0) := by
  have hj : idx.toNat < size := by omega
  have hnn : (0 : ℤ) ≤ ((k : ℕ) : ℤ) * idx := by positivity
  have htn : (((k : ℕ) : ℤ) * idx).toNat = k * idx.toNat := by
    rcases Int.eq_ofNat_of_zero_le h0 with ⟨j, rfl⟩
    rw [show ((j : ℕ) : ℤ).toNat = j from Int.toNat_natCast j,
      ← Nat.cast_mul, Int.toNat_natCast]
  have hmul : k * idx.toNat < base.length := by
    have h1 : k * (idx.toNat + 1) ≤ k * size :=
      Nat.mul_le_mul_left k (by omega)
    have h2 : k * (idx.toNat + 1) = k * idx.toNat + k := by ring
    omega
  rw [pyGet, dif_pos ⟨hnn, by rw [htn]; exact hmul⟩,
    get_eq_getD base _ _, htn,
    pySliceStep_getD base k idx.toNat (by rw [hlen]; exact hj),
    Nat.mul_comm idx.toNat k]

set_option maxRecDepth 16384 in
theorem init_ok (size : ℕ) (hs : size ∈ valid_series_sizes) (idx : ℤ)
    (e : ℤ) (pos : Bool) (h0 : 0 ≤ idx) (hlt : idx < (size : ℤ)) :
    ESeriesValue.init idx size e pos = .ok
      { series_exponent := idx, series_size := size, exponent := e,
        is_positive := pos, series := "E" ++ toString size,
        significant_figures := if size ≥ 48 then 3 else 2,
        preferred_number :=
          (available_preferred_numbers size).getD idx.toNat 0 } := by
  rw [valid_series_sizes] at hs
  fin_cases hs
  · show (pyGet PREFERRED_NUMBER_E24 (((8:ℕ):ℤ) * idx)).bind
        (fun preferred => (pure (ESeriesValue.mk idx 3 e pos ("E" ++ toString (3:ℕ)) (if (3:ℕ) ≥ 48 then 3 else 2) preferred) : Except String ESeriesValue)) = _
    rw [pyGet_slice PREFERRED_NUMBER_E24 8 3 idx (by norm_num) h0 hlt rfl
      (by decide)]
    rfl
  · show (pyGet PREFERRED_NUMBER_E24 (((4:ℕ):ℤ) * idx)).bind
        (fun preferred => (pure (ESeriesValue.mk idx 6 e pos ("E" ++ toString (6:ℕ)) (if (6:ℕ) ≥ 48 then 3 else 2) preferred) : Except String ESeriesValue)) = _
    rw [pyGet_slice PREFERRED_NUMBER_E24 4 6 idx (by norm_num) h0 hlt rfl
      (by decide)]
    rfl
  · show (pyGet PREFERRED_NUMBER_E24 (((2:ℕ):ℤ) * idx)).bind
        (fun preferred => (pure (ESeriesValue.mk idx 12 e pos ("E" ++ toString (12:ℕ)) (if (12:ℕ) ≥ 48 then 3 else 2) preferred) : Except String ESeriesValue)) = _
    rw [pyGet_slice PREFERRED_NUMBER_E24 2 12 idx (by norm_num) h0 hlt rfl
      (by decide)]
    rfl
  · show (pyGet PREFERRED_NUMBER_E24 (((1:ℕ):ℤ) * idx)).bind
        (fun preferred => (pure (ESeriesValue.mk idx 24 e pos ("E" ++ toString (24:ℕ)) (if (24:ℕ) ≥ 48 then 3 else 2) preferred) : Except String ESeriesValue)) = _
    rw [pyGet_slice PREFERRED_NUMBER_E24 1 24 idx (by norm_num) h0 hlt rfl
      (by decide)]
    rfl
  · show (pyGet PREFERRED_NUMBER_E192 (((4:ℕ):ℤ) * idx)).bind
        (fun preferred => (pure (ESeriesValue.mk idx 48 e pos ("E" ++ toString (48:ℕ)) (if (48:ℕ) ≥ 48 then 3 else 2) preferred) : Except String ESeriesValue)) = _
    rw [pyGet_slice PREFERRED_NUMBER_E192 4 48 idx (by norm_num) h0 hlt rfl
      (by decide)]
    rfl
  · show (pyGet PREFERRED_NUMBER_E192 (((2:ℕ):ℤ) * idx)).bind
        (fun preferred => (pure (ESeriesValue.mk idx 96 e pos ("E" ++ toString (96:ℕ)) (if (96:ℕ) ≥ 48 then 3 else 2) preferred) : Except String ESeriesValue)) = _
    rw [pyGet_slice PREFERRED_NUMBER_E192 2 96 idx (by norm_num) h0 hlt rfl
      (by decide)]
    rfl
  · show (pyGet PREFERRED_NUMBER_E192 (((1:ℕ):ℤ) * idx)).bind
        (fun preferred => (pure (ESeriesValue.mk idx 192 e pos ("E" ++ toString (192:ℕ)) (if (192:ℕ) ≥ 48 then 3 else 2) preferred) : Except String ESeriesValue)) = _
    rw [pyGet_slice PREFERRED_NUMBER_E192 1 192 idx (by norm_num) h0 hlt rfl
      (by decide)]
    rfl

theorem create_unfold (value : ℚ) (mode : String) (series : String)
    (h : series ∈ valid_series_tags) :
    ∃ size, size ∈ valid_series_sizes ∧
      query_series_size series = .ok size ∧
      ESeriesValue.create value series mode =
        ESeriesValue.init
          (query_rounded_value_index (cal_significand_and_exponent value).1
            (available_preferred_numbers size) mode)
          size (cal_significand_and_exponent value).2
          (decide (0 ≤ (cal_significand_and_exponent value).1)) := by
  rw [valid_series_tags] at h
  fin_cases h
  · exact ⟨3, by norm_num [valid_series_sizes], rfl, rfl⟩
  · exact ⟨6, by norm_num [valid_series_sizes], rfl, rfl⟩
  · exact ⟨12, by norm_num [valid_series_sizes], rfl, rfl⟩
  · exact ⟨24, by norm_num [valid_series_sizes], rfl, rfl⟩
  · exact ⟨48, by norm_num [valid_series_sizes], rfl, rfl⟩
  · exact ⟨96, by norm_num [valid_series_sizes], rfl, rfl⟩
  · exact ⟨192, by norm_num [valid_series_sizes], rfl, rfl⟩

theorem create_invalid_series (value : ℚ) (mode : String) (series : String)
    (h : series ∉ valid_series_tags) :
    ESeriesValue.create value series mode = .error "invalid series" := by
  simp only [ESeriesValue.create, launch_e_series_verify, if_neg h]
  rfl

theorem pyGet_err_of_ge (base : List ℚ) (i : ℤ)
    (h : (base.length : ℤ) ≤ i) : pyGet base i = .error "IndexError" := by
  rw [pyGet, dif_neg, dif_neg]
  · intro hc
    omega
  · intro hc
    omega

theorem pyGet_wrap_of_neg (base : List ℚ) (i : ℤ) (h1 : i < 0)
    (h2 : 0 ≤ i + base.length) :
    pyGet base i = .ok (base.get ⟨(i + base.length).toNat, by omega⟩) := by
  rw [pyGet, dif_neg (by omega), dif_pos ⟨h2, by omega⟩]

theorem init_eq_bind (size : ℕ) (hs : size ∈ valid_series_sizes)
    (idx e : ℤ) (pos : Bool) :
    ESeriesValue.init idx size e pos =
      if size ≤ 24 then
        (pyGet PREFERRED_NUMBER_E24 (((24 / size : ℕ) : ℤ) * idx)).bind
          (fun preferred => pure (ESeriesValue.mk idx size e pos
            ("E" ++ toString size) (if size ≥ 48 then 3 else 2) preferred))
      else
        (pyGet PREFERRED_NUMBER_E192 (((192 / size : ℕ) : ℤ) * idx)).bind
          (fun preferred => pure (ESeriesValue.mk idx size e pos
            ("E" ++ toString size) (if size ≥ 48 then 3 else 2) preferred)) := by
  simp only [ESeriesValue.init]
  rw [launch_e_series_size_verify, if_pos hs]
  rfl

theorem series_k_mul (size : ℕ) (h : size ∈ valid_series_sizes) :
    (size ≤ 24 → 24 / size * size = 24) ∧
    (¬ (size ≤ 24) → 192 / size * size = 192) := by
  rw [valid_series_sizes] at h
  fin_cases h <;> norm_num

theorem init_err_of_ge (size : ℕ) (hs : size ∈ valid_series_sizes)
    (idx e : ℤ) (pos : Bool) (hidx : (size : ℤ) ≤ idx) :
    ESeriesValue.init idx size e pos = .error "IndexError" := by
  rw [init_eq_bind size hs idx e pos]
  obtain ⟨hk24, hk192⟩ := series_k_mul size hs
  rcases le_or_lt size 24 with hle | hgt
  · rw [if_pos hle, pyGet_err_of_ge]
    · rfl
    · have hb : (24 / size) * size = 24 := hk24 hle
      have h1 : ((24 / size : ℕ) : ℤ) * (size : ℤ) ≤ ((24 / size : ℕ) : ℤ) * idx :=
        mul_le_mul_of_nonneg_left hidx (by positivity)
      have h2 : ((24 / size : ℕ) : ℤ) * (size : ℤ) = 24 := by
        exact_mod_cast hb
      rw [show (PREFERRED_NUMBER_E24.length : ℤ) = 24 from by rfl]
      omega
  · rw [if_neg (not_le.mpr hgt), pyGet_err_of_ge]
    · rfl
    · have hb : (192 / size) * size = 192 := hk192 (not_le.mpr hgt)
      have h1 : ((192 / size : ℕ) : ℤ) * (size : ℤ) ≤ ((192 / size : ℕ) : ℤ) * idx :=
        mul_le_mul_of_nonneg_left hidx (by positivity)
      have h2 : ((192 / size : ℕ) : ℤ) * (size : ℤ) = 192 := by
        exact_mod_cast hb
      rw [show (PREFERRED_NUMBER_E192.length : ℤ) = 192 from by rfl]
      omega

theorem init_ok_of_neg_wrap (size : ℕ) (hs : size ∈ valid_series_sizes)
    (idx e : ℤ) (pos : Bool) (h1 : -(size : ℤ) ≤ idx) (h2 : idx < 0) :
    ∃ v : ESeriesValue, ESeriesValue.init idx size e pos = .ok v ∧
      v.series_exponent = idx := by
  rw [init_eq_bind size hs idx e pos]
  obtain ⟨hk24, hk192⟩ := series_k_mul size hs
  have hkpos : 0 < size := by
    rw [valid_series_sizes] at hs
    fin_cases hs <;> norm_num
  rcases le_or_lt size 24 with hle | hgt
  · have hb : (24 / size) * size = 24 := hk24 hle
    have hkz : 0 < 24 / size := by
      rcases Nat.eq_zero_or_pos (24 / size) with hz | hp
      · rw [hz] at hb
        omega
      · exact hp
    have hneg : ((24 / size : ℕ) : ℤ) * idx < 0 := by
      apply mul_neg_of_pos_of_neg _ h2
      exact_mod_cast hkz
    have hwrap : 0 ≤ ((24 / size : ℕ) : ℤ) * idx + PREFERRED_NUMBER_E24.length := by
      have hmul : ((24 / size : ℕ) : ℤ) * (-(size : ℤ)) ≤ ((24 / size : ℕ) : ℤ) * idx :=
        mul_le_mul_of_nonneg_left h1 (by positivity)
      have h2' : ((24 / size : ℕ) : ℤ) * (size : ℤ) = 24 := by
        exact_mod_cast hb
      rw [show (PREFERRED_NUMBER_E24.length : ℤ) = 24 from by rfl]
      have : ((24 / size : ℕ) : ℤ) * (-(size : ℤ)) = -24 := by
        rw [mul_neg, h2']
      omega
    rw [if_pos hle, pyGet_wrap_of_neg _ _ hneg hwrap]
    exact ⟨_, rfl, rfl⟩
  · have hb : (192 / size) * size = 192 := hk192 (not_le.mpr hgt)
    have hkz : 0 < 192 / size := by
      rcases Nat.eq_zero_or_pos (192 / size) with hz | hp
      · rw [hz] at hb
        omega
      · exact hp
    have hneg : ((192 / size : ℕ) : ℤ) * idx < 0 := by
      apply mul_neg_of_pos_of_neg _ h2
      exact_mod_cast hkz
    have hwrap : 0 ≤ ((192 / size : ℕ) : ℤ) * idx + PREFERRED_NUMBER_E192.length := by
      have hmul : ((192 / size : ℕ) : ℤ) * (-(size : ℤ)) ≤ ((192 / size : ℕ) : ℤ) * idx :=
        mul_le_mul_of_nonneg_left h1 (by positivity)
      have h2' : ((192 / size : ℕ) : ℤ) * (size : ℤ) = 192 := by
        exact_mod_cast hb
      rw [show (PREFERRED_NUMBER_E192.length : ℤ) = 192 from by rfl]
      have : ((192 / size : ℕ) : ℤ) * (-(size : ℤ)) = -192 := by
        rw [mul_neg, h2']
      omega
    rw [if_neg (not_le.mpr hgt), pyGet_wrap_of_neg _ _ hneg hwrap]
    exact ⟨_, rfl, rfl⟩

theorem query_series_size_invalid (series : String)
    (h : series ∉ valid_series_tags) :
    query_series_size series = .error "invalid series" := by
  simp only [query_series_size, launch_e_series_verify, if_neg h]
  rfl

theorem query_series_size_ok (series : String) (size : ℕ)
    (h : query_series_size series = .ok size) :
    series ∈ valid_series_tags ∧ size ∈ valid_series_sizes := by
  by_cases hs : series ∈ valid_series_tags
  · refine ⟨hs, ?_⟩
    rw [valid_series_tags] at hs
    fin_cases hs <;>
      first
      | (rw [show query_series_size "E3" = .ok 3 from rfl] at h
         injection h with h
         rw [← h]
         norm_num [valid_series_sizes])
      | (rw [show query_series_size "E6" = .ok 6 from rfl] at h
         injection h with h
         rw [← h]
         norm_num [valid_series_sizes])
      | (rw [show query_series_size "E12" = .ok 12 from rfl] at h
         injection h with h
         rw [← h]
         norm_num [valid_series_sizes])
      | (rw [show query_series_size "E24" = .ok 24 from rfl] at h
         injection h with h
         rw [← h]
         norm_num [valid_series_sizes])
      | (rw [show query_series_size "E48" = .ok 48 from rfl] at h
         injection h with h
         rw [← h]
         norm_num [valid_series_sizes])
      | (rw [show query_series_size "E96" = .ok 96 from rfl] at h
         injection h with h
         rw [← h]
         norm_num [valid_series_sizes])
      | (rw [show query_series_size "E192" = .ok 192 from rfl] at h
         injection h with h
         rw [← h]
         norm_num [valid_series_sizes])
  · rw [query_series_size_invalid series hs] at h
    exact absurd h (by simp)

theorem createScalar_exact (series : String) (size : ℕ)
    (hq : query_series_size series = .ok size)
    (i : ℕ) (hi : i < size) (e : ℤ) :
    createScalar ((available_preferred_numbers size).getD i 0 * 10 ^ e)
        series "nearest" =
      .ok ((available_preferred_numbers size).getD i 0 * 10 ^ e) ∧
    createScalar ((available_preferred_numbers size).getD i 0 * 10 ^ e)
        series "floor" =
      .ok ((available_preferred_numbers size).getD i 0 * 10 ^ e) ∧
    (i + 1 < size →
      createScalar ((available_preferred_numbers size).getD i 0 * 10 ^ e)
          series "ceil" =
        .ok ((available_preferred_numbers size).getD (i + 1) 0 * 10 ^ e)) ∧
    (i + 1 = size →
      createScalar ((available_preferred_numbers size).getD i 0 * 10 ^ e)
          series "ceil" =
        .ok ((available_preferred_numbers size).getD i 0 * 10 ^ e)) := by
  obtain ⟨hser, hmem⟩ := query_series_size_ok series size hq
  obtain ⟨hpair, hlen, hhead, hbounds⟩ := avail_facts size hmem
  have hi' : i < (available_preferred_numbers size).length := by
    rw [hlen]
    exact hi
  have hpget : (available_preferred_numbers size).getD i 0 =
      (available_preferred_numbers size).get ⟨i, hi'⟩ :=
    (get_eq_getD _ i hi').symm
  have hpmem : (available_preferred_numbers size).get ⟨i, hi'⟩ ∈
      available_preferred_numbers size := List.get_mem _ i hi'
  obtain ⟨hb1, hb2⟩ := hbounds _ hpmem
  have hppos : 0 < (available_preferred_numbers size).getD i 0 := by
    rw [hpget]
    linarith
  have habs1 : 1 ≤ |(available_preferred_numbers size).getD i 0| := by
    rw [abs_of_pos hppos, hpget]
    exact hb1
  have habs2 : |(available_preferred_numbers size).getD i 0| < 10 := by
    rw [abs_of_pos hppos, hpget]
    exact hb2
  have hsig : cal_significand_and_exponent
      ((available_preferred_numbers size).getD i 0 * 10 ^ e) =
      ((available_preferred_numbers size).getD i 0, e) :=
    cal_sig_exact _ e habs1 habs2
  have hpos : ∀ x ∈ available_preferred_numbers size, 0 < x := by
    intro x hx
    have := (hbounds x hx).1
    linarith
  obtain ⟨hqf, hqn, hqclt, hqceq⟩ := qrvi_get _ hpair hpos i hi'
  have hdec : decide
      (0 ≤ (available_preferred_numbers size).getD i 0) = true :=
    decide_eq_true (le_of_lt hppos)
  have htos : ∀ (idx2 : ℕ) (hidx2 : idx2 < size),
      (ESeriesValue.init (idx2 : ℤ) size e true).map ESeriesValue.to_scalar =
        .ok ((available_preferred_numbers size).getD idx2 0 * 10 ^ e) := by
    intro idx2 hidx2
    rw [init_ok size hmem (idx2 : ℤ) e true (by positivity)
      (by exact_mod_cast hidx2)]
    simp [Except.map, ESeriesValue.to_scalar, Int.toNat_natCast]
  refine ⟨?_, ?_, ?_, ?_⟩
  · obtain ⟨size2, hmem2, hq2, hcreate⟩ :=
      create_unfold ((available_preferred_numbers size).getD i 0 * 10 ^ e)
        "nearest" series hser
    rw [hq] at hq2
    injection hq2 with hq2
    subst hq2
    rw [createScalar, hcreate, hsig]
    simp only [hdec]
    rw [hpget, hqn, ← hpget]
    exact htos i hi
  · obtain ⟨size2, hmem2, hq2, hcreate⟩ :=
      create_unfold ((available_preferred_numbers size).getD i 0 * 10 ^ e)
        "floor" series hser
    rw [hq] at hq2
    injection hq2 with hq2
    subst hq2
    rw [createScalar, hcreate, hsig]
    simp only [hdec]
    rw [hpget, hqf, ← hpget]
    exact htos i hi
  · intro hlt
    obtain ⟨size2, hmem2, hq2, hcreate⟩ :=
      create_unfold ((available_preferred_numbers size).getD i 0 * 10 ^ e)
        "ceil" series hser
    rw [hq] at hq2
    injection hq2 with hq2
    subst hq2
    rw [createScalar, hcreate, hsig]
    simp only [hdec]
    rw [hpget, hqclt (by rw [hlen]; exact hlt)]
    have hcast : ((i : ℤ) + 1) = ((i + 1 : ℕ) : ℤ) := by push_cast; ring
    rw [hcast]
    exact htos (i + 1) hlt
  · intro heq
    obtain ⟨size2, hmem2, hq2, hcreate⟩ :=
      create_unfold ((available_preferred_numbers size).getD i 0 * 10 ^ e)
        "ceil" series hser
    rw [hq] at hq2
    injection hq2 with hq2
    subst hq2
    rw [createScalar, hcreate, hsig]
    simp only [hdec]
    rw [hpget, hqceq (by rw [hlen]; exact heq), ← hpget]
    exact htos i hi

theorem cal_sig_zero : cal_significand_and_exponent 0 = (0, 0) := by
  rw [cal_significand_and_exponent, if_pos rfl]

theorem create_ok_of_valid (value : ℚ) (series : String) (mode : String)
    (hser : series ∈ valid_series_tags) :
    ∃ v, ESeriesValue.create value series mode = .ok v := by
  obtain ⟨size, hmem, hq, hcreate⟩ := create_unfold value mode series hser
  obtain ⟨hpair, hlen, hhead, hbounds⟩ := avail_facts size hmem
  have hne := avail_ne_nil size hmem
  have hszpos : 0 < size := by
    rw [valid_series_sizes] at hmem
    fin_cases hmem <;> norm_num
  rcases eq_or_ne value 0 with rfl | hv
  · rw [hcreate, cal_sig_zero]
    simp only [qrvi_zero]
    exact ⟨_, by
      rw [init_ok size hmem 0 0 _ le_rfl (by exact_mod_cast hszpos)]⟩
  · obtain ⟨-, habs1, -, -⟩ := cal_significand_and_exponent_spec value hv
    have hb : 0 ≤ query_rounded_value_index
          (cal_significand_and_exponent value).1
          (available_preferred_numbers size) mode ∧
        query_rounded_value_index (cal_significand_and_exponent value).1
          (available_preferred_numbers size) mode <
          (available_preferred_numbers size).length := by
      rw [qrvi_abs]
      exact qrvi_nonneg_of_one_le _ hne hhead _ habs1 mode
    rw [hcreate]
    exact ⟨_, by
      rw [init_ok size hmem _ _ _ hb.1 (by rw [hlen] at hb; exact_mod_cast hb.2)]⟩

theorem create_mode_else (value : ℚ) (series : String) (mode : String)
    (hser : series ∈ valid_series_tags)
    (h1 : mode ≠ "floor") (h2 : mode ≠ "ceil") :
    ESeriesValue.create value series mode =
      ESeriesValue.create value series "nearest" := by
  obtain ⟨size, hmem, hq, hcreate⟩ := create_unfold value mode series hser
  obtain ⟨size2, hmem2, hq2, hcreate2⟩ :=
    create_unfold value "nearest" series hser
  rw [hq] at hq2
  injection hq2 with hq2
  subst hq2
  rw [hcreate, hcreate2, qrvi_mode_else _ _ _ h1 h2]

/-- C4: for every non-zero real value, `cal_significand_and_exponent`
returns a significand with the same sign as the value and magnitude in
`[1, 10)` together with an exponent reconstructing the value as
`significand * 10 ^ exponent`; the zero value decomposes to `(0, 0)`. -/
theorem claim_C4_decompose (value : ℚ) (hv : value ≠ 0) :
    (0 < value ↔ 0 < (cal_significand_and_exponent value).1) ∧
    (value < 0 ↔ (cal_significand_and_exponent value).1 < 0) ∧
    1 ≤ |(cal_significand_and_exponent value).1| ∧
    |(cal_significand_and_exponent value).1| < 10 ∧
    value = (cal_significand_and_exponent value).1 *
      10 ^ (cal_significand_and_exponent value).2 ∧
    cal_significand_and_exponent 0 = (0, 0) := by
  obtain ⟨h1, h2, h3, h4⟩ := cal_significand_and_exponent_spec value hv
  have hs0 : (cal_significand_and_exponent value).1 ≠ 0 := by
    intro hc
    rw [hc] at h2
    norm_num at h2
  refine ⟨h4.symm, ?_, h2, h3, h1.symm, cal_sig_zero⟩
  constructor
  · intro hvneg
    rcases lt_trichotomy (cal_significand_and_exponent value).1 0 with h | h | h
    · exact h
    · exact absurd h hs0
    · have := h4.mp h
      linarith
  · intro hsneg
    rcases lt_trichotomy value 0 with h | h | h
    · exact h
    · exact absurd h hv
    · have := h4.mpr h
      linarith

/-- Witness for C4 at the concrete input `-3800` from the repository
doctest. -/
theorem claim_C4_decompose_witness :
    (0 < (-3800 : ℚ) ↔ 0 < (cal_significand_and_exponent (-3800)).1) ∧
    ((-3800 : ℚ) < 0 ↔ (cal_significand_and_exponent (-3800)).1 < 0) ∧
    1 ≤ |(cal_significand_and_exponent (-3800 : ℚ)).1| ∧
    |(cal_significand_and_exponent (-3800 : ℚ)).1| < 10 ∧
    (-3800 : ℚ) = (cal_significand_and_exponent (-3800 : ℚ)).1 *
      10 ^ (cal_significand_and_exponent (-3800 : ℚ)).2 ∧
    cal_significand_and_exponent 0 = (0, 0) :=
  claim_C4_decompose (-3800) (by norm_num)

/-- C1 as stated is false: the preferred number `1.0` of the `E3` series
(times `10 ^ 0`) does not round to itself under mode `ceil`; the code
uses a right-biased bisection, so an exact table value rounds up to the
next entry (`2.2`). -/
theorem claim_C1_counterexample :
    createScalar ((available_preferred_numbers 3).getD 0 0 * 10 ^ (0 : ℤ))
        "E3" "ceil" ≠
      .ok ((available_preferred_numbers 3).getD 0 0 * 10 ^ (0 : ℤ)) := by
  have h := (createScalar_exact "E3" 3 rfl 0 (by norm_num) 0).2.2.1
    (by norm_num)
  rw [h]
  have h0 : (available_preferred_numbers 3).getD 0 0 = 1 := by
    rw [show available_preferred_numbers 3 =
        pySliceStep PREFERRED_NUMBER_E24 8 from rfl,
      pySliceStep_getD _ 8 0 (by decide)]
    norm_num [PREFERRED_NUMBER_E24]
  have h1 : (available_preferred_numbers 3).getD 1 0 = 2.2 := by
    rw [show available_preferred_numbers 3 =
        pySliceStep PREFERRED_NUMBER_E24 8 from rfl,
      pySliceStep_getD _ 8 1 (by decide)]
    norm_num [PREFERRED_NUMBER_E24]
  rw [h0, h1]
  intro hc
  injection hc with hc
  norm_num at hc

/-- C1 amended: a value exactly on a preferred number of a valid series
rounds to itself under the modes `nearest` and `floor`; under `ceil` the
right-biased bisection rounds it up to the next table entry, except at
the last entry of the table, which rounds to itself. -/
theorem claim_C1_idempotence (series : String) (size : ℕ)
    (hq : query_series_size series = .ok size)
    (i : ℕ) (hi : i < size) (e : ℤ) :
    createScalar ((available_preferred_numbers size).getD i 0 * 10 ^ e)
        series "nearest" =
      .ok ((available_preferred_numbers size).getD i 0 * 10 ^ e) ∧
    createScalar ((available_preferred_numbers size).getD i 0 * 10 ^ e)
        series "floor" =
      .ok ((available_preferred_numbers size).getD i 0 * 10 ^ e) ∧
    (i + 1 < size →
      createScalar ((available_preferred_numbers size).getD i 0 * 10 ^ e)
          series "ceil" =
        .ok ((available_preferred_numbers size).getD (i + 1) 0 * 10 ^ e)) ∧
    (i + 1 = size →
      createScalar ((available_preferred_numbers size).getD i 0 * 10 ^ e)
          series "ceil" =
        .ok ((available_preferred_numbers size).getD i 0 * 10 ^ e)) :=
  createScalar_exact series size hq i hi e

/-- Witness for amended C1: the preferred number at index 12 of the E24
table (3.3) at decade exponent 3. -/
theorem claim_C1_idempotence_witness :
    createScalar ((available_preferred_numbers 24).getD 12 0 * 10 ^ (3 : ℤ))
        "E24" "nearest" =
      .ok ((available_preferred_numbers 24).getD 12 0 * 10 ^ (3 : ℤ)) ∧
    createScalar ((available_preferred_numbers 24).getD 12 0 * 10 ^ (3 : ℤ))
        "E24" "floor" =
      .ok ((available_preferred_numbers 24).getD 12 0 * 10 ^ (3 : ℤ)) ∧
    (12 + 1 < 24 →
      createScalar ((available_preferred_numbers 24).getD 12 0 * 10 ^ (3 : ℤ))
          "E24" "ceil" =
        .ok ((available_preferred_numbers 24).getD (12 + 1) 0 * 10 ^ (3 : ℤ))) ∧
    (12 + 1 = 24 →
      createScalar ((available_preferred_numbers 24).getD 12 0 * 10 ^ (3 : ℤ))
          "E24" "ceil" =
        .ok ((available_preferred_numbers 24).getD 12 0 * 10 ^ (3 : ℤ))) :=
  claim_C1_idempotence "E24" 24 rfl 12 (by norm_num) 3

/-- C2 as stated is false: an unrecognized rounding-mode string does not
raise; the mode dispatch falls through to the `nearest` branch, so
`create` succeeds and behaves as `nearest` (here the exact value `1`
returns itself). -/
theorem claim_C2_counterexample :
    createScalar 1 "E24" "banana" = .ok 1 := by
  have hmode := create_mode_else 1 "E24" "banana"
    (by norm_num [valid_series_tags]) (by decide) (by decide)
  have h0 : (available_preferred_numbers 24).getD 0 0 = 1 := by
    rw [show available_preferred_numbers 24 =
        pySliceStep PREFERRED_NUMBER_E24 1 from rfl,
      pySliceStep_getD _ 1 0 (by decide)]
    norm_num [PREFERRED_NUMBER_E24]
  have h := (createScalar_exact "E24" 24 rfl 0 (by norm_num) 0).1
  rw [h0] at h
  norm_num at h
  rw [createScalar, hmode, ← createScalar]
  exact h

/-- C2 amended: `ESeriesValue.create` fails with `InvalidArgument`
exactly when the series tag is invalid, whatever the mode; for a valid
series it always succeeds, and an unrecognized mode string is treated as
`nearest`. -/
theorem claim_C2_invalid_args (value : ℚ) (series mode : String) :
    (series ∉ valid_series_tags →
      ESeriesValue.create value series mode = .error "invalid series") ∧
    (series ∈ valid_series_tags →
      (∃ v, ESeriesValue.create value series mode = .ok v) ∧
      (mode ∉ ["nearest", "floor", "ceil"] →
        ESeriesValue.create value series mode =
          ESeriesValue.create value series "nearest")) := by
  refine ⟨create_invalid_series value mode series, ?_⟩
  intro hser
  refine ⟨create_ok_of_valid value series mode hser, ?_⟩
  intro hm
  simp only [List.mem_cons, List.mem_singleton, not_or] at hm
  exact create_mode_else value series mode hser hm.2.1 hm.2.2.1

/-- Witness for amended C2: value 7, valid series E24, unrecognized mode
string. -/
theorem claim_C2_invalid_args_witness :
    (∃ v, ESeriesValue.create 7 "E24" "banana" = .ok v) ∧
    ESeriesValue.create 7 "E24" "banana" =
      ESeriesValue.create 7 "E24" "nearest" :=
  ⟨((claim_C2_invalid_args 7 "E24" "banana").2
      (by norm_num [valid_series_tags])).1,
   ((claim_C2_invalid_args 7 "E24" "banana").2
      (by norm_num [valid_series_tags])).2 (by decide)⟩

/-- C3 as stated is false: `ESeriesValue.__init__` does not reject a
negative `series_exponent`; Python negative indexing wraps, so the
construction with `series_exponent = -1` in the E24 series succeeds and
yields the last preferred number, an object violating the stated
invariant. -/
theorem claim_C3_counterexample :
    ∃ v : ESeriesValue, ESeriesValue.init (-1) 24 0 true = .ok v ∧
      v.series_exponent = -1 ∧ v.preferred_number = 9.1 := by
  refine ⟨ESeriesValue.mk (-1) 24 0 true ("E" ++ toString (24 : ℕ)) 2 9.1,
    ?_, rfl, rfl⟩
  rfl

/-- C3 amended: `__init__` validates only the series size.  A
`series_exponent` in `[0, size)` constructs an object satisfying the
invariant; `series_exponent ≥ size` fails with an index error rather
than the size validation; a negative `series_exponent` in `[-size, 0)`
wraps Python-style and succeeds, producing an object that violates the
invariant. -/
theorem claim_C3_init_validation (size : ℕ) (hs : size ∈ valid_series_sizes)
    (idx e : ℤ) (pos : Bool) :
    (0 ≤ idx → idx < (size : ℤ) →
      ∃ v, ESeriesValue.init idx size e pos = .ok v ∧
        v.series_exponent = idx ∧ 0 ≤ v.series_exponent ∧
        v.series_exponent < (size : ℤ)) ∧
    ((size : ℤ) ≤ idx →
      ESeriesValue.init idx size e pos = .error "IndexError") ∧
    (-(size : ℤ) ≤ idx → idx < 0 →
      ∃ v, ESeriesValue.init idx size e pos = .ok v ∧
        v.series_exponent = idx ∧ v.series_exponent < 0) := by
  refine ⟨?_, init_err_of_ge size hs idx e pos, ?_⟩
  · intro h0 hlt
    exact ⟨_, init_ok size hs idx e pos h0 hlt, rfl, h0, hlt⟩
  · intro h1 h2
    obtain ⟨v, hv, hse⟩ := init_ok_of_neg_wrap size hs idx e pos h1 h2
    exact ⟨v, hv, hse, by rw [hse]; exact h2⟩

/-- Witness for amended C3: the in-range, overflowing and wrapping
constructions for the E24 series. -/
theorem claim_C3_init_validation_witness :
    (∃ v, ESeriesValue.init 12 24 3 false = .ok v ∧
      v.series_exponent = 12 ∧ 0 ≤ v.series_exponent ∧
      v.series_exponent < (24 : ℤ)) ∧
    ESeriesValue.init 25 24 3 false = .error "IndexError" ∧
    (∃ v, ESeriesValue.init (-1) 24 3 false = .ok v ∧
      v.series_exponent = -1 ∧ v.series_exponent < 0) :=
  ⟨(claim_C3_init_validation 24 (by norm_num [valid_series_sizes])
      12 3 false).1 (by norm_num) (by norm_num),
   (claim_C3_init_validation 24 (by norm_num [valid_series_sizes])
      25 3 false).2.1 (by norm_num),
   (claim_C3_init_validation 24 (by norm_num [valid_series_sizes])
      (-1) 3 false).2.2 (by norm_num) (by norm_num)⟩

/-- C7: for every non-zero value, a valid series, and any of the three
modes, creating from the negated value yields the negated scalar:
rounding happens on the magnitude and the sign is reattached
afterward. -/
theorem claim_C7_sign_symmetry (x : ℚ) (hx : x ≠ 0) (series : String)
    (hser : series ∈ valid_series_tags) (mode : String)
    (hm : mode ∈ ["nearest", "floor", "ceil"]) :
    createScalar (-x) series mode =
      (createScalar x series mode).map (fun r => -r) := by
  clear hm
  obtain ⟨size, hmem, hq, hc1⟩ := create_unfold x mode series hser
  obtain ⟨size2, hmem2, hq2, hc2⟩ := create_unfold (-x) mode series hser
  rw [hq] at hq2
  injection hq2 with hq2
  subst hq2
  obtain ⟨hpair, hlen, hhead, hbounds⟩ := avail_facts size hmem
  have hne := avail_ne_nil size hmem
  obtain ⟨heq, habs1, habs2, hsign⟩ := cal_significand_and_exponent_spec x hx
  have hsneg : cal_significand_and_exponent (-x) =
      (-(cal_significand_and_exponent x).1,
        (cal_significand_and_exponent x).2) := cal_sig_neg x hx
  have hs0 : (cal_significand_and_exponent x).1 ≠ 0 := by
    intro hc
    rw [hc] at habs1
    norm_num at habs1
  have hb : 0 ≤ query_rounded_value_index (cal_significand_and_exponent x).1
        (available_preferred_numbers size) mode ∧
      query_rounded_value_index (cal_significand_and_exponent x).1
        (available_preferred_numbers size) mode <
        (available_preferred_numbers size).length := by
    rw [qrvi_abs]
    exact qrvi_nonneg_of_one_le _ hne hhead _ habs1 mode
  have hblt : query_rounded_value_index (cal_significand_and_exponent x).1
      (available_preferred_numbers size) mode < (size : ℤ) := by
    rw [hlen] at hb
    exact_mod_cast hb.2
  rw [createScalar, createScalar, hc1, hc2, hsneg]
  simp only
  rw [qrvi_neg]
  rcases lt_or_gt_of_ne hs0 with hneg | hpos
  · have hd1 : decide (0 ≤ (cal_significand_and_exponent x).1) = false :=
      decide_eq_false (not_le.mpr hneg)
    have hd2 : decide (0 ≤ -(cal_significand_and_exponent x).1) = true :=
      decide_eq_true (by linarith)
    rw [hd1, hd2,
      init_ok size hmem _ _ true hb.1 hblt,
      init_ok size hmem _ _ false hb.1 hblt]
    simp [Except.map, ESeriesValue.to_scalar]
  · have hd1 : decide (0 ≤ (cal_significand_and_exponent x).1) = true :=
      decide_eq_true (le_of_lt hpos)
    have hd2 : decide (0 ≤ -(cal_significand_and_exponent x).1) = false :=
      decide_eq_false (not_le.mpr (by linarith))
    rw [hd1, hd2,
      init_ok size hmem _ _ false hb.1 hblt,
      init_ok size hmem _ _ true hb.1 hblt]
    simp [Except.map, ESeriesValue.to_scalar]

/-- Witness for C7 at `x = 3500`, series E24, mode nearest (the scenario
of the repository test `test_ESeriesValue_create`). -/
theorem claim_C7_sign_symmetry_witness :
    createScalar (-3500) "E24" "nearest" =
      (createScalar 3500 "E24" "nearest").map (fun r => -r) :=
  claim_C7_sign_symmetry 3500 (by norm_num) "E24"
    (by norm_num [valid_series_tags]) "nearest" (by decide)

theorem pyNth_neg_wrap (l : List ℚ) (i : ℤ) (h1 : i < 0)
    (h2 : 0 ≤ i + l.length) :
    pyNth l i = l.get ⟨(i + l.length).toNat, by omega⟩ := by
  rw [pyNth, dif_neg (by omega), dif_pos ⟨h2, by omega⟩]

/-- C8 as stated is false: monotonicity fails at magnitude `0` against a
magnitude in `(0, 1)`.  The zero special case returns index `0`, but for
a positive magnitude below the first table entry the bisection yields
`floor_index = -1` (which Python indexing wraps to the last entry), so
the returned index decreases from `0` to `-1`. -/
theorem claim_C8_counterexample :
    (0 : ℚ) ≤ 1/2 ∧
    query_rounded_value_index 0 (available_preferred_numbers 3) "nearest" = 0 ∧
    query_rounded_value_index (1/2) (available_preferred_numbers 3)
      "nearest" = -1 ∧
    ¬ (query_rounded_value_index 0 (available_preferred_numbers 3) "nearest" ≤
       query_rounded_value_index (1/2) (available_preferred_numbers 3)
         "nearest") := by
  obtain ⟨hpair, hlen, hhead, hbounds⟩ :=
    avail_facts 3 (by norm_num [valid_series_sizes])
  have hbz : bisect_right (available_preferred_numbers 3) (1/2) = 0 := by
    apply List.countP_eq_zero.mpr
    intro a ha
    simp only [decide_eq_true_eq]
    have := (hbounds a ha).1
    intro hc
    linarith
  have hpy1 : pyNth (available_preferred_numbers 3) (-1) = 4.7 := by
    rw [pyNth_neg_wrap _ _ (by norm_num) (by rw [hlen]; norm_num)]
    rw [get_eq_getD]
    rw [show ((-1 : ℤ) + (available_preferred_numbers 3).length).toNat = 2
      from by rw [hlen]; rfl]
    rw [show available_preferred_numbers 3 =
        pySliceStep PREFERRED_NUMBER_E24 8 from rfl,
      pySliceStep_getD _ 8 2 (by decide)]
    norm_num [PREFERRED_NUMBER_E24]
  have hpy0 : pyNth (available_preferred_numbers 3) 0 = 1 := by
    have hc := pyNth_coe (available_preferred_numbers 3) 0
      (by rw [hlen]; norm_num)
    rw [Nat.cast_zero] at hc
    rw [hc, get_eq_getD]
    rw [show available_preferred_numbers 3 =
        pySliceStep PREFERRED_NUMBER_E24 8 from rfl,
      pySliceStep_getD _ 8 0 (by decide)]
    norm_num [PREFERRED_NUMBER_E24]
  have hq2 : query_rounded_value_index (1/2) (available_preferred_numbers 3)
      "nearest" = -1 := by
    rw [qrvi_unfold (1/2) _ "nearest" (by norm_num) (by norm_num),
      if_neg (by decide : ¬ (("nearest" : String) = "floor")),
      if_neg (by decide : ¬ (("nearest" : String) = "ceil")), hbz, hlen]
    norm_num [hpy1, hpy0]
  refine ⟨by norm_num, qrvi_zero _ _, hq2, ?_⟩
  rw [qrvi_zero, hq2]
  norm_num

/-- C8 amended: the nearest-mode rounding index is monotonically
non-decreasing over all positive magnitudes `0 < a ≤ b`; the zero
special case is also below the index of any magnitude `b ≥ 1`.  (The
only failures of monotonicity are the pairs `a = 0 < b < 1` of the
counterexample.) -/
theorem claim_C8_monotone (series : String) (size : ℕ)
    (hq : query_series_size series = .ok size) (a b : ℚ) :
    (0 < a → a ≤ b →
      query_rounded_value_index a (available_preferred_numbers size)
          "nearest" ≤
        query_rounded_value_index b (available_preferred_numbers size)
          "nearest") ∧
    (1 ≤ b →
      query_rounded_value_index 0 (available_preferred_numbers size)
          "nearest" ≤
        query_rounded_value_index b (available_preferred_numbers size)
          "nearest") := by
  obtain ⟨hser, hmem⟩ := query_series_size_ok series size hq
  obtain ⟨hpair, hlen, hhead, hbounds⟩ := avail_facts size hmem
  have hne := avail_ne_nil size hmem
  refine ⟨qrvi_nearest_mono _ a b, ?_⟩
  intro hb
  rw [qrvi_zero]
  exact (qrvi_nonneg_of_one_le _ hne hhead b hb "nearest").1

/-- Witness for amended C8 on the E24 table at `a = 2`, `b = 3`. -/
theorem claim_C8_monotone_witness :
    query_rounded_value_index 2 (available_preferred_numbers 24)
        "nearest" ≤
      query_rounded_value_index 3 (available_preferred_numbers 24)
        "nearest" ∧
    query_rounded_value_index 0 (available_preferred_numbers 24)
        "nearest" ≤
      query_rounded_value_index 3 (available_preferred_numbers 24)
        "nearest" :=
  ⟨(claim_C8_monotone "E24" 24 rfl 2 3).1 (by norm_num) (by norm_num),
   (claim_C8_monotone "E24" 24 rfl 2 3).2 (by norm_num)⟩

/-! ### LED model: bounds of the derived limits and the bisection -/

theorem foldl_min_le_foldl_max (xs : List ℚ) :
    ∀ a b : ℚ, a ≤ b → xs.foldl min a ≤ xs.foldl max b := by
  induction xs with
  | nil =>
    intro a b h
    exact h
  | cons y ys ih =>
    intro a b h
    simp only [List.foldl_cons]
    apply ih
    calc min a y ≤ a := min_le_left a y
    _ ≤ b := h
    _ ≤ max b y := le_max_left b y

theorem listAmin_le_listAmax (l : List ℚ) : listAmin l ≤ listAmax l := by
  cases l with
  | nil => exact le_refl 0
  | cons x xs => exact foldl_min_le_foldl_max xs x x le_rfl

theorem bisectRoot_mem (f : ℚ → ℚ) :
    ∀ (n : ℕ) (a b : ℚ), a ≤ b →
      a ≤ bisectRoot f a b n ∧ bisectRoot f a b n ≤ b := by
  intro n
  induction n with
  | zero =>
    intro a b h
    rw [bisectRoot]
    constructor <;> linarith
  | succ m ih =>
    intro a b h
    rw [bisectRoot]
    have hm1 : a ≤ (a + b) / 2 := by linarith
    have hm2 : (a + b) / 2 ≤ b := by linarith
    split_ifs with hs
    · obtain ⟨g1, g2⟩ := ih a ((a + b) / 2) hm1
      exact ⟨g1, le_trans g2 hm2⟩
    · obtain ⟨g1, g2⟩ := ih ((a + b) / 2) b hm2
      exact ⟨le_trans hm1 g1, g2⟩

/-- C6: `cal_current` returns NaN exactly when the voltage lies outside
the open interval between the voltage limits (bound touches included in
the NaN case), without attempting the search; for a voltage strictly
inside, it returns the bounded-bisection result for
`cal_voltage(i) - voltage == 0`, which lies within the current
limits. -/
theorem claim_C6_cal_current (led : LED) (voltage : ℚ) :
    (led.cal_current voltage = none ↔
      ¬ (led.voltage_limit.1 < voltage ∧ voltage < led.voltage_limit.2)) ∧
    (led.voltage_limit.1 < voltage → voltage < led.voltage_limit.2 →
      led.cal_current voltage =
        some (bisectRoot
          (fun current =>
            interpEval led.currents led.voltages current - voltage)
          led.current_limit.1 led.current_limit.2 50) ∧
      ∃ r, led.cal_current voltage = some r ∧
        led.current_limit.1 ≤ r ∧ r ≤ led.current_limit.2) := by
  have hmm : led.current_limit.1 ≤ led.current_limit.2 :=
    listAmin_le_listAmax led.currents
  constructor
  · rw [LED.cal_current]
    split_ifs with h
    · simp only [true_iff]
      simp only [LED.is_voltage_valid, Bool.and_eq_false_iff] at h
      rcases h with h | h
      · intro hc
        rw [decide_eq_false_iff_not] at h
        exact h hc.1
      · intro hc
        rw [decide_eq_false_iff_not] at h
        exact h hc.2
    · simp only [reduceCtorEq, false_iff, not_not]
      rw [Bool.not_eq_false] at h
      simp only [LED.is_voltage_valid, Bool.and_eq_true, decide_eq_true_eq]
        at h
      exact h
  · intro h1 h2
    have hvalid : led.is_voltage_valid voltage = true := by
      simp only [LED.is_voltage_valid, Bool.and_eq_true, decide_eq_true_eq]
      exact ⟨h1, h2⟩
    have heq : led.cal_current voltage =
        some (bisectRoot
          (fun current =>
            interpEval led.currents led.voltages current - voltage)
          led.current_limit.1 led.current_limit.2 50) := by
      rw [LED.cal_current, if_neg]
      rw [hvalid]
      simp
    obtain ⟨g1, g2⟩ := bisectRoot_mem
      (fun current => interpEval led.currents led.voltages current - voltage)
      50 led.current_limit.1 led.current_limit.2 hmm
    exact ⟨heq, _, heq, g1, g2⟩

/-- Witness for C6: the LED fixture of the repository test suite at the
valid voltage `2.5` and the invalid voltage `10`. -/
theorem claim_C6_cal_current_witness :
    (testLED.cal_current 10 = none ↔
      ¬ (testLED.voltage_limit.1 < 10 ∧ (10 : ℚ) < testLED.voltage_limit.2)) ∧
    (testLED.cal_current (5/2) =
      some (bisectRoot
        (fun current =>
          interpEval testLED.currents testLED.voltages current - (5/2))
        testLED.current_limit.1 testLED.current_limit.2 50) ∧
      ∃ r, testLED.cal_current (5/2) = some r ∧
        testLED.current_limit.1 ≤ r ∧ r ≤ testLED.current_limit.2) :=
  ⟨(claim_C6_cal_current testLED 10).1,
   (claim_C6_cal_current testLED (5/2)).2
     (by norm_num [testLED, LED.voltage_limit, listAmin, List.foldl, min_def])
     (by norm_num [testLED, LED.voltage_limit, listAmax, List.foldl, max_def])⟩

theorem foldl_min_of_le (xs : List ℚ) :
    ∀ a : ℚ, (∀ y ∈ xs, a ≤ y) → xs.foldl min a = a := by
  induction xs with
  | nil =>
    intro a _
    rfl
  | cons y ys ih =>
    intro a h
    simp only [List.foldl_cons]
    rw [min_eq_left (h y (by simp))]
    exact ih a (fun z hz => h z (by simp [hz]))

theorem sorted_listAmin (l : List ℚ) (hl : l.Pairwise (· ≤ ·)) :
    listAmin l = l.headD 0 := by
  cases l with
  | nil => rfl
  | cons x xs =>
    simp only [listAmin, List.headD_cons]
    exact foldl_min_of_le xs x (List.pairwise_cons.mp hl).1

theorem foldl_max_sorted (xs : List ℚ) :
    ∀ x : ℚ, (x :: xs).Pairwise (· ≤ ·) →
      xs.foldl max x = (x :: xs).getLastD 0 := by
  induction xs with
  | nil =>
    intro x _
    rfl
  | cons y ys ih =>
    intro x h
    obtain ⟨hx, htail⟩ := List.pairwise_cons.mp h
    simp only [List.foldl_cons]
    rw [max_eq_right (hx y (by simp))]
    have := ih y htail
    rw [this]
    rfl

theorem sorted_listAmax (l : List ℚ) (hl : l.Pairwise (· ≤ ·)) :
    listAmax l = l.getLastD 0 := by
  cases l with
  | nil => rfl
  | cons x xs => exact foldl_max_sorted xs x hl

/-- C10: for an LED built from ascending calibration arrays,
`cal_voltage` produces a value (not NaN) at the exact endpoints of the
current range — the spline domain is the closed interval — even though
`is_current_valid` is `false` at both endpoints (strict open-interval
test). -/
theorem claim_C10_endpoints (name : String) (voltages currents : List ℚ)
    (hne : currents ≠ []) (hsort : currents.Pairwise (· ≤ ·)) :
    ((LED.mk name voltages currents none).cal_voltage
      (LED.mk name voltages currents none).current_limit.1).isSome = true ∧
    ((LED.mk name voltages currents none).cal_voltage
      (LED.mk name voltages currents none).current_limit.2).isSome = true ∧
    (LED.mk name voltages currents none).is_current_valid
      (LED.mk name voltages currents none).current_limit.1 = false ∧
    (LED.mk name voltages currents none).is_current_valid
      (LED.mk name voltages currents none).current_limit.2 = false := by
  have hmin : listAmin currents = currents.headD 0 :=
    sorted_listAmin currents hsort
  have hmax : listAmax currents = currents.getLastD 0 :=
    sorted_listAmax currents hsort
  have hmm : listAmin currents ≤ listAmax currents :=
    listAmin_le_listAmax currents
  have hlim : (LED.mk name voltages currents none).current_limit =
      (listAmin currents, listAmax currents) := rfl
  refine ⟨?_, ?_, ?_, ?_⟩
  · rw [LED.cal_voltage, if_pos]
    · rfl
    · constructor
      · show currents.headD 0 ≤ listAmin currents
        rw [hmin]
      · show listAmin currents ≤ currents.getLastD 0
        rw [← hmax]
        exact hmm
  · rw [LED.cal_voltage, if_pos]
    · rfl
    · constructor
      · show currents.headD 0 ≤ listAmax currents
        rw [← hmin]
        exact hmm
      · show listAmax currents ≤ currents.getLastD 0
        rw [hmax]
  · simp only [LED.is_current_valid, hlim, Bool.and_eq_false_iff]
    left
    simp
  · simp only [LED.is_current_valid, hlim, Bool.and_eq_false_iff]
    right
    simp

/-- Witness for C10 on the LED fixture of the repository test suite. -/
theorem claim_C10_endpoints_witness :
    ((LED.mk "test" [0, 1, 2, 5] [1, 1.2, 1.4, 2] none).cal_voltage
      (LED.mk "test" [0, 1, 2, 5] [1, 1.2, 1.4, 2] none).current_limit.1).isSome
      = true ∧
    ((LED.mk "test" [0, 1, 2, 5] [1, 1.2, 1.4, 2] none).cal_voltage
      (LED.mk "test" [0, 1, 2, 5] [1, 1.2, 1.4, 2] none).current_limit.2).isSome
      = true ∧
    (LED.mk "test" [0, 1, 2, 5] [1, 1.2, 1.4, 2] none).is_current_valid
      (LED.mk "test" [0, 1, 2, 5] [1, 1.2, 1.4, 2] none).current_limit.1
      = false ∧
    (LED.mk "test" [0, 1, 2, 5] [1, 1.2, 1.4, 2] none).is_current_valid
      (LED.mk "test" [0, 1, 2, 5] [1, 1.2, 1.4, 2] none).current_limit.2
      = false :=
  claim_C10_endpoints "test" [0, 1, 2, 5] [1, 1.2, 1.4, 2] (by simp)
    (by norm_num [List.pairwise_cons])

/-- C5: modelled from the spec — the divider-resistance range fails with
`InvalidArgument` for every supply voltage at or below `v_min`; above
it, the lower bound is `(supply - v_max) / i_max` floored at zero and
the upper bound is `(supply - v_min) / i_min`, or positive infinity
instead of failing when `i_min = 0`. -/
theorem claim_C5_divider_range (led : LED) (supply_voltage : ℚ) :
    (supply_voltage ≤ led.voltage_limit.1 →
      led.cal_divider_resistance_range_if_power_supplied supply_voltage =
        .error "power voltage too small") ∧
    (led.voltage_limit.1 < supply_voltage →
      ∃ lo hi,
        led.cal_divider_resistance_range_if_power_supplied supply_voltage =
          .ok (lo, hi) ∧
        lo = max 0 ((supply_voltage - led.voltage_limit.2) /
          led.current_limit.2) ∧
        0 ≤ lo ∧
        (led.current_limit.1 = 0 → hi = ⊤) ∧
        (led.current_limit.1 ≠ 0 →
          hi = ((supply_voltage - led.voltage_limit.1) /
            led.current_limit.1 : ℚ))) := by
  constructor
  · intro h
    rw [LED.cal_divider_resistance_range_if_power_supplied, if_pos h]
  · intro h
    rw [LED.cal_divider_resistance_range_if_power_supplied,
      if_neg (not_le.mpr h)]
    refine ⟨_, _, rfl, rfl, le_max_left _ _, ?_, ?_⟩
    · intro hz
      rw [if_pos hz]
    · intro hz
      rw [if_neg hz]

/-- Witness for C5 on the preset `TYPICAL_LED` (whose `i_min` is zero)
at supply voltage 5, and its failure at 2. -/
theorem claim_C5_divider_range_witness :
    TYPICAL_LED.cal_divider_resistance_range_if_power_supplied 2 =
      .error "power voltage too small" ∧
    ∃ lo hi,
      TYPICAL_LED.cal_divider_resistance_range_if_power_supplied 5 =
        .ok (lo, hi) ∧
      lo = max 0 ((5 - TYPICAL_LED.voltage_limit.2) /
        TYPICAL_LED.current_limit.2) ∧
      0 ≤ lo ∧
      (TYPICAL_LED.current_limit.1 = 0 → hi = ⊤) ∧
      (TYPICAL_LED.current_limit.1 ≠ 0 →
        hi = ((5 - TYPICAL_LED.voltage_limit.1) /
          TYPICAL_LED.current_limit.1 : ℚ)) :=
  ⟨(claim_C5_divider_range TYPICAL_LED 2).1
     (by norm_num [TYPICAL_LED, LED.voltage_limit, listAmin, List.foldl,
       min_def]),
   (claim_C5_divider_range TYPICAL_LED 5).2
     (by norm_num [TYPICAL_LED, LED.voltage_limit, listAmin, List.foldl,
       min_def])⟩

/-! ### The standard resistance table -/

set_option maxRecDepth 16384 in
theorem E24_getLastD : PREFERRED_NUMBER_E24.getLastD 0 = 9.1 := by rfl

theorem E24_le_top : ∀ x ∈ PREFERRED_NUMBER_E24, x ≤ 9.1 := by
  intro x hx
  have h := le_getLastD_of_sorted _ E24_pairwise x hx
  rwa [E24_getLastD] at h

theorem flat_length (n : ℕ) :
    ((List.range n).flatMap
      (fun k => PREFERRED_NUMBER_E24.map (fun b => b * 10 ^ k))).length =
      24 * n := by
  induction n with
  | zero => rfl
  | succ m ih =>
    rw [List.range_succ, List.flatMap_append, List.length_append, ih,
      List.flatMap_cons, List.flatMap_nil, List.append_nil, List.length_map]
    rw [show PREFERRED_NUMBER_E24.length = 24 from rfl]
    ring

theorem flat_getD (n : ℕ) (j : ℕ) (hj : j < 24 * n) :
    ((List.range n).flatMap
      (fun k => PREFERRED_NUMBER_E24.map (fun b => b * 10 ^ k))).getD j 0 =
      PREFERRED_NUMBER_E24.getD (j % 24) 0 * 10 ^ (j / 24) := by
  induction n with
  | zero => omega
  | succ m ih =>
    rw [List.range_succ, List.flatMap_append, List.flatMap_cons,
      List.flatMap_nil, List.append_nil]
    rcases Nat.lt_or_ge j (24 * m) with hlt | hge
    · rw [List.getD_append _ _ _ j (by rw [flat_length]; exact hlt)]
      exact ih hlt
    · rw [List.getD_append_right _ _ _ j (by rw [flat_length]; exact hge)]
      rw [flat_length]
      have hr : j - 24 * m < 24 := by omega
      have hmod : j % 24 = j - 24 * m := by omega
      have hdiv : j / 24 = m := by omega
      rw [hmod, hdiv]
      rw [List.getD_eq_get?, List.get?_map,
        List.get?_eq_get (show j - 24 * m < PREFERRED_NUMBER_E24.length
          from hr)]
      rw [List.getD_eq_get?,
        List.get?_eq_get (show j - 24 * m < PREFERRED_NUMBER_E24.length
          from hr)]
      rfl

theorem flat_mem_bounds (n : ℕ) :
    ∀ x ∈ (List.range n).flatMap
      (fun k => PREFERRED_NUMBER_E24.map (fun b => b * 10 ^ k)),
      ∃ k, k < n ∧ 10 ^ k ≤ x ∧ x ≤ 9.1 * 10 ^ k := by
  intro x hx
  rw [List.mem_flatMap] at hx
  obtain ⟨k, hk, hxk⟩ := hx
  rw [List.mem_map] at hxk
  obtain ⟨b, hb, rfl⟩ := hxk
  obtain ⟨hb1, hb2⟩ := E24_bounds b hb
  have hb3 := E24_le_top b hb
  have hk' : k < n := List.mem_range.mp hk
  have hp : (0 : ℚ) < 10 ^ k := by positivity
  exact ⟨k, hk', by nlinarith, by nlinarith⟩

theorem flat_pairwise (n : ℕ) :
    ((List.range n).flatMap
      (fun k => PREFERRED_NUMBER_E24.map (fun b => b * 10 ^ k))).Pairwise
      (· < ·) := by
  induction n with
  | zero => exact List.Pairwise.nil
  | succ m ih =>
    rw [List.range_succ, List.flatMap_append, List.flatMap_cons,
      List.flatMap_nil, List.append_nil, List.pairwise_append]
    refine ⟨ih, ?_, ?_⟩
    · apply List.Pairwise.map _ _ E24_pairwise
      intro a b hab
      have hp : (0 : ℚ) < 10 ^ m := by positivity
      nlinarith
    · intro a ha b hb
      obtain ⟨k, hk, hk1, hk2⟩ := flat_mem_bounds m a ha
      rw [List.mem_map] at hb
      obtain ⟨c, hc, rfl⟩ := hb
      obtain ⟨hc1, -⟩ := E24_bounds c hc
      have hp : (0 : ℚ) < 10 ^ k := by positivity
      have hpm : (0 : ℚ) < 10 ^ m := by positivity
      have h1 : (9.1 : ℚ) * 10 ^ k < 10 ^ (k + 1) := by
        rw [pow_succ]
        nlinarith
      have h2 : (10 : ℚ) ^ (k + 1) ≤ 10 ^ m := by
        apply pow_le_pow_right₀ (by norm_num)
        omega
      nlinarith

theorem STANDARD_length : STANDARD_RESISTANCES.length = 168 := by
  rw [STANDARD_RESISTANCES, flat_length]

theorem STANDARD_pairwise : STANDARD_RESISTANCES.Pairwise (· < ·) := by
  rw [STANDARD_RESISTANCES]
  exact flat_pairwise 7

theorem STANDARD_getD (j : ℕ) (hj : j < 168) :
    STANDARD_RESISTANCES.getD j 0 =
      PREFERRED_NUMBER_E24.getD (j % 24) 0 * 10 ^ (j / 24) := by
  rw [STANDARD_RESISTANCES]
  exact flat_getD 7 j (by omega)

theorem STANDARD_mem_bounds :
    ∀ x ∈ STANDARD_RESISTANCES, 1 ≤ x ∧ x ≤ 9.1 * 10 ^ 6 := by
  intro x hx
  rw [STANDARD_RESISTANCES] at hx
  obtain ⟨k, hk, hk1, hk2⟩ := flat_mem_bounds 7 x hx
  have h1 : (1 : ℚ) ≤ 10 ^ k := one_le_pow₀ (by norm_num)
  have h2 : (10 : ℚ) ^ k ≤ 10 ^ 6 := by
    apply pow_le_pow_right₀ (by norm_num)
    omega
  constructor
  · linarith
  · nlinarith

theorem headD_eq_getD (l : List ℚ) (h : l ≠ []) :
    l.headD 0 = l.getD 0 0 := by
  cases l with
  | nil => exact absurd rfl h
  | cons x xs => rfl

theorem getLastD_eq_getD (l : List ℚ) :
    l ≠ [] → l.getLastD 0 = l.getD (l.length - 1) 0 := by
  induction l with
  | nil =>
    intro h
    exact absurd rfl h
  | cons x xs ih =>
    intro h0
    cases xs with
    | nil => rfl
    | cons y ys =>
      have h1 : (x :: y :: ys).getLastD 0 = (y :: ys).getLastD 0 := rfl
      rw [h1, ih (by simp)]
      show (y :: ys).getD ((y :: ys).length - 1) 0 =
        (x :: y :: ys).getD ((x :: y :: ys).length - 1) 0
      have h2 : (x :: y :: ys).length - 1 = ys.length + 1 := by simp
      have h3 : (y :: ys).length - 1 = ys.length := by simp
      rw [h2, h3]
      rfl

theorem bisect_right_eq_of (t : List ℚ) (ht : t.Pairwise (· < ·)) (u : ℚ)
    (i : ℕ) (hile : i ≤ t.length)
    (hlow : ∀ (hh : i - 1 < t.length), 0 < i → t.get ⟨i - 1, hh⟩ ≤ u)
    (hhigh : ∀ (hh : i < t.length), u < t.get ⟨i, hh⟩) :
    bisect_right t u = i := by
  have hub := bisect_right_le_length t u
  rcases Nat.lt_trichotomy (bisect_right t u) i with h | h | h
  · exfalso
    have hi1 : i - 1 < t.length := by omega
    have hlt := (bisect_right_iff t ht u (i - 1) hi1).mpr
      (hlow hi1 (by omega))
    omega
  · exact h
  · exfalso
    have hi2 : i < t.length := by omega
    have hle := (bisect_right_iff t ht u i hi2).mp (by omega)
    have := hhigh hi2
    linarith

theorem bisect_left_iff (t : List ℚ) (ht : t.Pairwise (· < ·)) (u : ℚ) :
    ∀ (j : ℕ) (hj : j < t.length),
      (j < t.countP (fun x => decide (x < u)) ↔ t.get ⟨j, hj⟩ < u) := by
  induction t with
  | nil =>
    intro j hj
    simp at hj
  | cons x xs ih =>
    intro j hj
    obtain ⟨hx, hxs⟩ := List.pairwise_cons.mp ht
    rw [List.countP_cons]
    rcases lt_or_ge x u with hxu | hxu
    · cases j with
      | zero => simp [hxu]
      | succ k =>
        have hk : k < xs.length := by simpa using hj
        have hiter := ih hxs k hk
        simp only [decide_eq_true_eq, hxu, if_pos]
        constructor
        · intro hlt
          exact hiter.mp (by omega)
        · intro hle
          have := hiter.mpr hle
          omega
    · have hzero : xs.countP (fun v => decide (v < u)) = 0 := by
        apply List.countP_eq_zero.mpr
        intro a ha
        simp only [decide_eq_true_eq]
        intro hau
        exact absurd (lt_trans (hx a ha) hau) (not_lt.mpr hxu)
      cases j with
      | zero => simp [hzero, not_lt.mpr hxu]
      | succ k =>
        have hk : k < xs.length := by simpa using hj
        have hmem : xs.get ⟨k, hk⟩ ∈ xs := List.get_mem xs k hk
        have hgt : u ≤ xs.get ⟨k, hk⟩ := le_of_lt (lt_of_le_of_lt hxu (hx _ hmem))
        have hgt2 : ¬ (xs[k] < u) := not_lt.mpr hgt
        simp [hzero, not_lt.mpr hxu, hgt2]

theorem bisect_left_eq_of (t : List ℚ) (ht : t.Pairwise (· < ·)) (u : ℚ)
    (i : ℕ) (hile : i ≤ t.length)
    (hlow : ∀ (hh : i - 1 < t.length), 0 < i → t.get ⟨i - 1, hh⟩ < u)
    (hhigh : ∀ (hh : i < t.length), u ≤ t.get ⟨i, hh⟩) :
    t.countP (fun x => decide (x < u)) = i := by
  have hub : t.countP (fun x => decide (x < u)) ≤ t.length :=
    List.countP_le_length _
  rcases Nat.lt_trichotomy (t.countP (fun x => decide (x < u))) i with h | h | h
  · exfalso
    have hi1 : i - 1 < t.length := by omega
    have hlt := (bisect_left_iff t ht u (i - 1) hi1).mpr
      (hlow hi1 (by omega))
    omega
  · exact h
  · exfalso
    have hi2 : i < t.length := by omega
    have hle := (bisect_left_iff t ht u i hi2).mp (by omega)
    have := hhigh hi2
    linarith

theorem STANDARD_get_eq (j : ℕ) (hj : j < STANDARD_RESISTANCES.length) :
    STANDARD_RESISTANCES.get ⟨j, hj⟩ =
      PREFERRED_NUMBER_E24.getD (j % 24) 0 * 10 ^ (j / 24) := by
  rw [get_eq_getD]
  exact STANDARD_getD j (by rw [STANDARD_length] at hj; exact hj)

theorem nearest_unfold (v : ℚ) :
    nearest_standard_resistance v =
      if bisect_right STANDARD_RESISTANCES v = 0 then
        STANDARD_RESISTANCES.headD 0
      else if bisect_right STANDARD_RESISTANCES v =
          STANDARD_RESISTANCES.length then
        STANDARD_RESISTANCES.getLastD 0
      else if v - STANDARD_RESISTANCES.getD
            (bisect_right STANDARD_RESISTANCES v - 1) 0 ≤
          STANDARD_RESISTANCES.getD (bisect_right STANDARD_RESISTANCES v) 0
            - v then
        STANDARD_RESISTANCES.getD
          (bisect_right STANDARD_RESISTANCES v - 1) 0
      else
        STANDARD_RESISTANCES.getD (bisect_right STANDARD_RESISTANCES v) 0 :=
  rfl

theorem round_up_unfold (v : ℚ) :
    round_up_standard_resistance v =
      if STANDARD_RESISTANCES.countP (fun x => decide (x < v)) =
          STANDARD_RESISTANCES.length then none
      else some (STANDARD_RESISTANCES.getD
        (STANDARD_RESISTANCES.countP (fun x => decide (x < v))) 0) :=
  rfl

theorem round_down_unfold (v : ℚ) :
    round_down_standard_resistance v =
      if bisect_right STANDARD_RESISTANCES v = 0 then none
      else some (STANDARD_RESISTANCES.getD
        (bisect_right STANDARD_RESISTANCES v - 1) 0) :=
  rfl

theorem bisect_STANDARD_3200 : bisect_right STANDARD_RESISTANCES 3200 = 84 := by
  apply bisect_right_eq_of _ STANDARD_pairwise _ 84
    (by rw [STANDARD_length]; omega)
  · intro hh _
    rw [STANDARD_get_eq 83 hh]
    norm_num [PREFERRED_NUMBER_E24]
  · intro hh
    rw [STANDARD_get_eq 84 hh]
    norm_num [PREFERRED_NUMBER_E24]

theorem bisect_STANDARD_3150 : bisect_right STANDARD_RESISTANCES 3150 = 84 := by
  apply bisect_right_eq_of _ STANDARD_pairwise _ 84
    (by rw [STANDARD_length]; omega)
  · intro hh _
    rw [STANDARD_get_eq 83 hh]
    norm_num [PREFERRED_NUMBER_E24]
  · intro hh
    rw [STANDARD_get_eq 84 hh]
    norm_num [PREFERRED_NUMBER_E24]

theorem bisect_left_STANDARD_3100 :
    STANDARD_RESISTANCES.countP (fun x => decide (x < 3100)) = 84 := by
  apply bisect_left_eq_of _ STANDARD_pairwise _ 84
    (by rw [STANDARD_length]; omega)
  · intro hh _
    rw [STANDARD_get_eq 83 hh]
    norm_num [PREFERRED_NUMBER_E24]
  · intro hh
    rw [STANDARD_get_eq 84 hh]
    norm_num [PREFERRED_NUMBER_E24]

/-- C9: modelled from the spec — `nearest_standard_resistance` clamps to
the first table entry below the table and to the last entry above it,
otherwise returns the nearer bracketing entry with ties toward the
lower; concretely `nearest(3200) = 3300`, with a tie at 3150 resolving
down to 3000, `round_down(3200) = 3000` and `round_up(3100) = 3300`. -/
theorem claim_C9_standard_resistance (v w : ℚ) :
    (v < 1 → nearest_standard_resistance v = 1) ∧
    (9.1 * 10 ^ 6 < w → nearest_standard_resistance w = 9.1 * 10 ^ 6) ∧
    nearest_standard_resistance 3200 = 3300 ∧
    nearest_standard_resistance 3150 = 3000 ∧
    round_down_standard_resistance 3200 = some 3000 ∧
    round_up_standard_resistance 3100 = some 3300 := by
  have hne : STANDARD_RESISTANCES ≠ [] := by
    intro hc
    have := STANDARD_length
    rw [hc] at this
    simp at this
  refine ⟨?_, ?_, ?_, ?_, ?_, ?_⟩
  · intro hv
    have hz : bisect_right STANDARD_RESISTANCES v = 0 := by
      apply List.countP_eq_zero.mpr
      intro a ha
      simp only [decide_eq_true_eq]
      have := (STANDARD_mem_bounds a ha).1
      intro hc
      linarith
    rw [nearest_unfold, if_pos hz, headD_eq_getD _ hne,
      STANDARD_getD 0 (by omega)]
    norm_num [PREFERRED_NUMBER_E24]
  · intro hw
    have hfull : bisect_right STANDARD_RESISTANCES w =
        STANDARD_RESISTANCES.length := by
      apply List.countP_eq_length.mpr
      intro a ha
      simp only [decide_eq_true_eq]
      have := (STANDARD_mem_bounds a ha).2
      linarith
    have hz : bisect_right STANDARD_RESISTANCES w ≠ 0 := by
      rw [hfull, STANDARD_length]
      omega
    rw [nearest_unfold, if_neg hz, if_pos hfull, getLastD_eq_getD _ hne,
      STANDARD_length, STANDARD_getD 167 (by omega)]
    norm_num [PREFERRED_NUMBER_E24]
  · rw [nearest_unfold, bisect_STANDARD_3200,
      if_neg (by omega : (84 : ℕ) ≠ 0),
      if_neg (by rw [STANDARD_length]; omega : (84 : ℕ) ≠
        STANDARD_RESISTANCES.length),
      STANDARD_getD 83 (by omega), STANDARD_getD 84 (by omega)]
    norm_num [PREFERRED_NUMBER_E24]
  · rw [nearest_unfold, bisect_STANDARD_3150,
      if_neg (by omega : (84 : ℕ) ≠ 0),
      if_neg (by rw [STANDARD_length]; omega : (84 : ℕ) ≠
        STANDARD_RESISTANCES.length),
      STANDARD_getD 83 (by omega), STANDARD_getD 84 (by omega)]
    norm_num [PREFERRED_NUMBER_E24]
  · rw [round_down_unfold, bisect_STANDARD_3200,
      if_neg (by omega : (84 : ℕ) ≠ 0), STANDARD_getD 83 (by omega)]
    norm_num [PREFERRED_NUMBER_E24]
  · rw [round_up_unfold, bisect_left_STANDARD_3100,
      if_neg (by rw [STANDARD_length]; omega : (84 : ℕ) ≠
        STANDARD_RESISTANCES.length),
      STANDARD_getD 84 (by omega)]
    norm_num [PREFERRED_NUMBER_E24]

/-- Witness for C9 at the spec boundary scenarios `0.2` and `10e6`. -/
theorem claim_C9_standard_resistance_witness :
    nearest_standard_resistance 0.2 = 1 ∧
    nearest_standard_resistance (10 ^ 7) = 9.1 * 10 ^ 6 :=
  ⟨(claim_C9_standard_resistance 0.2 (10 ^ 7)).1 (by norm_num),
   (claim_C9_standard_resistance 0.2 (10 ^ 7)).2.1 (by norm_num)⟩

end HktkzyxToolbox
